import Mathlib

/-!
# Verification of the Ultimate-frisbee timeline/playback engine

Shallow embedding of the recording, reconstruction, playback, linking
and CSV-loading operations of `ufc3.py`, together with proofs about them.

Conventions:
- Python `float` coordinates are modelled as `ℚ`.
- Python `dict`s are modelled as association lists with first-match lookup
  (`aget`) and replace-or-append update (`aset`), which matches `dict`
  insertion-order semantics for the unique-key dictionaries the code builds.
- Python `round` (banker's rounding) is modelled by `pyRound`.
-/

set_option maxHeartbeats 1000000

namespace UFC

/-- 2D position in field meters. -/
abbrev Pos := ℚ × ℚ

section AList

variable {κ : Type} {α : Type} [DecidableEq κ]

/-- Dictionary lookup: first entry with the given key (keys are unique in all
dictionaries the code builds, mirroring Python `dict.get`). -/
def aget : List (κ × α) → κ → Option α
  | [], _ => none
  | (k', v) :: d, k => if k' = k then some v else aget d k

/-- Dictionary update `d[k] = v`: replace in place if the key exists
(keeping insertion order), else append, mirroring Python `dict.__setitem__`. -/
def aset : List (κ × α) → κ → α → List (κ × α)
  | [], k, v => [(k, v)]
  | (k', v') :: d, k, v => if k' = k then (k, v) :: d else (k', v') :: aset d k v

/-- Dictionary deletion `del d[k]`, mirroring Python `dict.__delitem__`. -/
def adel : List (κ × α) → κ → List (κ × α)
  | [], _ => []
  | (k', v') :: d, k => if k' = k then d else (k', v') :: adel d k

/-- The keys of an association list are pairwise distinct. -/
def NodupKeys (d : List (κ × α)) : Prop := (d.map Prod.fst).Nodup

@[simp] theorem aget_nil (k : κ) : aget ([] : List (κ × α)) k = none := rfl

@[simp] theorem aget_aset_self (d : List (κ × α)) (k : κ) (v : α) :
    aget (aset d k v) k = some v := by
  induction d with
  | nil => simp [aget, aset]
  | cons p d ih =>
    obtain ⟨k', v'⟩ := p
    by_cases h : k' = k <;> simp [aget, aset, h, ih]

theorem aget_aset_ne (d : List (κ × α)) (k k' : κ) (v : α) (h : k' ≠ k) :
    aget (aset d k v) k' = aget d k' := by
  have hk : k ≠ k' := Ne.symm h
  induction d with
  | nil => simp [aget, aset, hk]
  | cons p d ih =>
    obtain ⟨k₀, v₀⟩ := p
    by_cases h0 : k₀ = k
    · subst h0
      simp [aget, aset, hk]
    · by_cases h1 : k₀ = k' <;> simp [aget, aset, h0, h1, ih, h]

theorem aget_mem {d : List (κ × α)} {k : κ} {v : α} (h : aget d k = some v) :
    (k, v) ∈ d := by
  induction d with
  | nil => simp [aget] at h
  | cons p d ih =>
    obtain ⟨k', v'⟩ := p
    by_cases hk : k' = k
    · subst hk
      simp [aget] at h
      simp [h]
    · simp [aget, hk] at h
      exact List.mem_cons_of_mem _ (ih h)

theorem mem_aset {d : List (κ × α)} {k : κ} {v : α} {x : κ × α}
    (h : x ∈ aset d k v) : x = (k, v) ∨ x ∈ d := by
  induction d with
  | nil => simpa [aset] using h
  | cons p d ih =>
    obtain ⟨k', v'⟩ := p
    by_cases hk : k' = k
    · subst hk
      simp [aset] at h
      rcases h with h | h
      · exact Or.inl h
      · exact Or.inr (List.mem_cons_of_mem _ h)
    · simp [aset, hk] at h
      rcases h with h | h
      · exact Or.inr (by simp [h])
      · rcases ih h with h | h
        · exact Or.inl h
        · exact Or.inr (List.mem_cons_of_mem _ h)

theorem nodupKeys_aset {d : List (κ × α)} (h : NodupKeys d) (k : κ) (v : α) :
    NodupKeys (aset d k v) := by
  induction d with
  | nil => simp [NodupKeys, aset]
  | cons p d ih =>
    obtain ⟨k', v'⟩ := p
    by_cases hk : k' = k
    · subst hk
      simp only [NodupKeys, aset, if_pos rfl] at h ⊢
      simpa using h
    · simp only [NodupKeys, aset, if_neg hk, List.map_cons, List.nodup_cons] at h ⊢
      refine ⟨fun hmem => ?_, ih h.2⟩
      rcases List.mem_map.1 hmem with ⟨x, hx, hlab⟩
      rcases mem_aset hx with rfl | hx'
      · exact hk (by simpa using hlab.symm)
      · exact h.1 (List.mem_map.2 ⟨x, hx', hlab⟩)

/-- Generic preservation of a predicate along a left fold. -/
theorem foldl_preserve {α' β' : Type} {P : α' → Prop} (f : α' → β' → α')
    (h : ∀ a b, P a → P (f a b)) :
    ∀ (l : List β') (a : α'), P a → P (l.foldl f a)
  | [], _, ha => ha
  | b :: l, a, ha => foldl_preserve f h l (f a b) (h a b ha)

end AList

/-! ## Configuration constants (`ufc3.py` top of file) -/

/-- `FIELD_LEN = 100.0` (meters). -/
def fieldLen : ℚ := 100

/-- `FIELD_WID = 37.0` (meters). -/
def fieldWid : ℚ := 37

/-- `SNAP = {'hard': 0.20, 'soft': 0.60, 'pull': 0.60}`. -/
def snapHard : ℚ := 20 / 100

def snapSoft : ℚ := 60 / 100

def snapPull : ℚ := 60 / 100

/-- `clamp(v, lo, hi) = max(lo, min(hi, v))`. -/
def qclamp (v lo hi : ℚ) : ℚ := max lo (min hi v)

/-- Python 3 `round` on a rational: round half to even (banker's rounding). -/
def pyRound (q : ℚ) : ℤ :=
  let f := ⌊q⌋
  let r := q - (f : ℚ)
  if r < 1 / 2 then f
  else if 1 / 2 < r then f + 1
  else if f % 2 = 0 then f else f + 1

/-- Python `int()` truncation toward zero. -/
def pyInt (q : ℚ) : ℤ := if q < 0 then ⌈q⌉ else ⌊q⌋

/-- `round(x, 6)` comparison helper: the integer `round(x * 10^6)`;
two floats agree after `round(_, 6)` iff these integers agree. -/
def r6 (q : ℚ) : ℤ := pyRound (q * 1000000)

/-- The change test of `save_step`:
`(pp is None) or (round(pp[0],6) != round(pos[0],6) or round(pp[1],6) != round(pos[1],6))`. -/
def posChanged (prev : Option Pos) (cur : Pos) : Bool :=
  match prev with
  | none => true
  | some pp => r6 pp.1 != r6 cur.1 || r6 pp.2 != r6 cur.2

/-! ## Data model -/

/-- A stored timeline record (`self.data[t]`) and equally a full snapshot:
a `players` map `label -> position` plus an optional disc position.
An absent `'players'`/`'disc'` key is modelled by `[]`/`none`. -/
structure Entry where
  players : List (String × Pos)
  disc : Option Pos
deriving DecidableEq

/-- Full snapshots returned by `build_snapshot` have the same shape as records. -/
abbrev Snap := Entry

/-- A player dict of the scene: `{"team": ..., "label": ..., "pos_m": [x, y]}`. -/
structure Player where
  team : String
  label : String
  pos : Pos
deriving DecidableEq

/-- A continuous-mode follow task (`Scene._follow_tasks` entries). -/
structure FollowTask where
  follower : ℕ
  start : Pos
  target : Pos
  delay : ℚ
  time : ℚ
  duration : ℚ
deriving DecidableEq

/-- A committed continuous-mode pair `frozenset({a, b})`; `a` was the
first-selected member at creation, `b` the second, but the set forgets order;
`pairList` and `pairEq` below give it frozenset semantics. -/
structure LPair where
  a : String
  b : String
deriving DecidableEq

/-- The members of a `frozenset({a, b})` as a duplicate-free list. -/
def pairList (p : LPair) : List String := if p.a = p.b then [p.a] else [p.a, p.b]

/-- Equality of two frozensets `{a, b}`. -/
def pairEq (p q : LPair) : Bool :=
  (p.a == q.a && p.b == q.b) || (p.a == q.b && p.b == q.a)

/-- The data of `Scene` relevant to the engine (pixel caches and fonts are
rendering-only and omitted). -/
structure Scene where
  players : List Player
  disc : Pos
  links : List LPair
  followTasks : List FollowTask
  followDelay : ℚ
  followDuration : ℚ
deriving DecidableEq

/-- `RecordingManager.state`: `None`, `'recording'` or `'playback'`. -/
inductive Mode
  | idle
  | recording
  | playback
deriving DecidableEq

/-- The discrete link graph `self.temp['links']`:
`{leader_label: {follower_label: delay_steps}}`. -/
abbrev Links := List (String × List (String × ℕ))

/-- The state of `RecordingManager`. -/
structure RM where
  mode : Mode
  data : List (ℤ × Entry)
  step : ℚ
  maxStep : ℚ
  cache : List (ℕ × Snap)
  links : Links
  moveStartedAt : List (String × ℕ)
  followersCache : Option Links

/-- The freshly initialized manager (`RecordingManager.__init__` / `reset`). -/
def rmInit : RM :=
  { mode := .idle, data := [], step := 0, maxStep := 0, cache := [],
    links := [], moveStartedAt := [], followersCache := none }

/-! ## Scene helpers -/

/-- `self._player_index_map = {p['label']: idx for idx, p in enumerate(self.players)}`
followed by `.get(lab)`: the index of the last player whose label is `lab`
(a later duplicate overwrites an earlier one in the dict comprehension). -/
def labelIdx : List Player → String → Option ℕ
  | [], _ => none
  | p :: ps, lab =>
    match labelIdx ps lab with
    | some i => some (i + 1)
    | none => if p.label = lab then some 0 else none

/-- `self.players[i]['pos_m'] = [x, y]`: update position at an index,
leaving team and label unchanged (out-of-range indices unreachable in the UI). -/
def setPlayerPos : List Player → ℕ → Pos → List Player
  | [], _, _ => []
  | p :: ps, 0, pos => { p with pos := pos } :: ps
  | p :: ps, i + 1, pos => p :: setPlayerPos ps i pos

/-- `Scene._spawn_players`. -/
def spawnPlayers : List Player :=
  let pad : ℚ := 3
  let usable : ℚ := fieldWid - 6
  let rows4 : List ℚ := (List.range 4).map (fun i => pad + usable * i / 3)
  let rows3 : List ℚ := (List.range 3).map (fun i => pad + usable * ((i : ℚ) + 1/2) / 3)
  let blue : List Pos := rows4.map (fun y => ((6 : ℚ), y)) ++ rows3.map (fun y => ((12 : ℚ), y))
  let red : List Pos := rows4.map (fun y => ((94 : ℚ), y)) ++ rows3.map (fun y => ((88 : ℚ), y))
  blue.enum.map (fun p => { team := "Blue", label := "B" ++ toString (p.1 + 1), pos := p.2 }) ++
    red.enum.map (fun p => { team := "Red", label := "R" ++ toString (p.1 + 1), pos := p.2 })

/-- `{p['label']: [float(p['pos_m'][0]), float(p['pos_m'][1])] for p in scene.players}`. -/
def currMapOf (sc : Scene) : List (String × Pos) :=
  sc.players.foldl (fun d p => aset d p.label p.pos) []

/-! ## Link graph (`RecordingManager`) -/

/-- `RecordingManager.link_players`. -/
def linkPlayers (rm : RM) (leader follower : String) (delay : ℤ) : RM :=
  if leader = follower then rm
  else
    let fmap := (aget rm.links leader).getD []
    { rm with links := aset rm.links leader (aset fmap follower (max 0 delay).toNat),
              followersCache := none }

/-- `RecordingManager.unlink_player`. -/
def unlinkPlayer (rm : RM) (follower leader : Option String) : RM :=
  let links :=
    match leader with
    | some l => if (aget rm.links l).isSome then adel rm.links l else rm.links
    | none => rm.links
  let links :=
    match follower with
    | some f =>
      (links.map Prod.fst).foldl (fun ls lead =>
        match aget ls lead with
        | some fm =>
          if (aget fm f).isSome then
            let fm' := adel fm f
            if fm' = [] then adel ls lead else aset ls lead fm'
          else ls
        | none => ls) links
    | none => links
  { rm with links := links, followersCache := none }

/-- One leader's contribution to `_rebuild_followers_cache`:
`fol.setdefault(lead, []).append((f, int(d)))` for each of its pairs. -/
def rebuildStep (fol : Links) (lf : String × List (String × ℕ)) : Links :=
  lf.2.foldl (fun fol2 fd => aset fol2 lf.1 ((aget fol2 lf.1).getD [] ++ [fd])) fol

/-- `RecordingManager._rebuild_followers_cache`: reverse map
`leader -> [(follower, delay)]` built by `setdefault(lead, []).append(...)`. -/
def rebuildFollowers (links : Links) : Links :=
  links.foldl rebuildStep []

/-- `any(lab in fmap for fmap in self.temp.get('links', {}).values())`. -/
def isFollower (links : Links) (lab : String) : Bool :=
  links.any (fun lf => lf.2.any (fun fd => fd.1 == lab))

/-! ## Snapshot reconstruction (`build_snapshot`) -/

/-- `self.data.get(s, {})`. -/
def entryAt (data : List (ℤ × Entry)) (s : ℤ) : Entry :=
  (aget data s).getD { players := [], disc := none }

/-- State of the first pass of `build_snapshot`: accumulated `players`, `disc`
and the `move_starts` map. -/
structure P1 where
  players : List (String × Pos)
  disc : Option Pos
  moveStarts : List (String × ℕ)

/-- One `(lab, pos)` item of a delta in the first pass of `build_snapshot`:
followers are skipped; otherwise a changed position records step `s` as the
move start, and the position is applied. -/
def pass1Player (links : Links) (s : ℕ) (st : P1) (lp : String × Pos) : P1 :=
  if isFollower links lp.1 then st
  else
    let ms := if aget st.players lp.1 ≠ some lp.2 then aset st.moveStarts lp.1 s else st.moveStarts
    { players := aset st.players lp.1 lp.2, disc := st.disc, moveStarts := ms }

/-- One step `s` of the first pass: replay the delta's players, then the disc. -/
def pass1Entry (links : Links) (s : ℕ) (st : P1) (e : Entry) : P1 :=
  let st' := e.players.foldl (pass1Player links s) st
  match e.disc with
  | some d => { st' with disc := some d }
  | none => st'

/-- The baseline state of the first pass: step 0's record copied in. -/
def initP1 (data : List (ℤ × Entry)) : P1 :=
  let base := entryAt data 0
  { players := base.players.foldl (fun d kv => aset d kv.1 kv.2) [],
    disc := base.disc,
    moveStarts := [] }

/-- First pass of `build_snapshot`: replay deltas `1..step` over the baseline,
tracking each non-follower's latest move-start step. -/
def pass1 (data : List (ℤ × Entry)) (links : Links) : ℕ → P1
  | 0 => initP1 data
  | s + 1 => pass1Entry links (s + 1) (pass1 data links s) (entryAt data ((s : ℤ) + 1))

/-- One leader of the second pass of `build_snapshot`: if the leader has a
position and a move start, teleport each of its followers that is due. -/
def pass2Leader (step : ℕ) (ms : List (String × ℕ)) (players : List (String × Pos))
    (lf : String × List (String × ℕ)) : List (String × Pos) :=
  match aget players lf.1, aget ms lf.1 with
  | some p, some s =>
    lf.2.foldl (fun pl fd => if s + fd.2 ≤ step then aset pl fd.1 p else pl) players
  | _, _ => players

/-- Second pass of `build_snapshot` over the follower index. -/
def pass2 (step : ℕ) (ms : List (String × ℕ)) (fol : Links)
    (players : List (String × Pos)) : List (String × Pos) :=
  fol.foldl (pass2Leader step ms) players

/-- The pure (cache-free) value of `build_snapshot(step)`: baseline plus deltas
with follower positions recomputed from the link graph. -/
def reconstructPure (data : List (ℤ × Entry)) (links : Links) (step : ℕ) : Snap :=
  let st := pass1 data links step
  { players := pass2 step st.moveStarts (rebuildFollowers links) st.players,
    disc := st.disc }

/-- `RecordingManager.build_snapshot`, including the snapshot cache and the
lazily rebuilt followers cache. -/
def buildSnapshot (rm : RM) (step : ℕ) : Snap × RM :=
  match aget rm.cache step with
  | some s => (s, rm)
  | none =>
    let st := pass1 rm.data rm.links step
    if rm.links = [] then
      let snap : Snap := { players := st.players, disc := st.disc }
      (snap, { rm with cache := aset rm.cache step snap })
    else
      let fol := rm.followersCache.getD (rebuildFollowers rm.links)
      let snap : Snap := { players := pass2 step st.moveStarts fol st.players, disc := st.disc }
      (snap, { rm with cache := aset rm.cache step snap, followersCache := some fol })

/-! ## Committing steps (`save_step` and friends) -/

/-- `max(self.data.keys())` (callers guarantee nonempty data). -/
def maxKey : List (ℤ × Entry) → ℤ
  | [] => 0
  | kv :: rest => rest.foldl (fun m kv' => max m kv'.1) kv.1

/-- `RecordingManager._prev_full_snapshot`. -/
def prevFullSnapshot (rm : RM) (tm1 : ℤ) : Option Snap × RM :=
  if tm1 < 0 ∨ rm.data = [] then (none, rm)
  else if tm1 = 0 ∧ (aget rm.data 0).isSome then
    let r := buildSnapshot rm 0
    (some r.1, r.2)
  else if (aget rm.data tm1).isSome ∨ tm1 ≤ maxKey rm.data then
    let r := buildSnapshot rm tm1.toNat
    (some r.1, r.2)
  else (none, rm)

/-- Mutable state of the follower auto-move loop of `save_step`:
the scene, `curr_map` and `changed` are all updated in place. -/
structure FolState where
  sc : Scene
  currMap : List (String × Pos)
  changed : List (String × Pos)

/-- The inner loop body of the follower auto-move: if enough steps have passed
since the leader's move start, teleport the follower to the leader's position
in the scene, `curr_map` and `changed`. -/
def folFollower (t startT : ℕ) (leaderNew : Pos) (st : FolState) (fd : String × ℕ) : FolState :=
  if (fd.2 : ℤ) ≤ (t : ℤ) - (startT : ℤ) then
    if (aget st.currMap fd.1).isSome then
      match labelIdx st.sc.players fd.1 with
      | some idx =>
        { sc := { st.sc with players := setPlayerPos st.sc.players idx leaderNew },
          currMap := aset st.currMap fd.1 leaderNew,
          changed := aset st.changed fd.1 leaderNew }
      | none => st
    else st
  else st

/-- The outer loop body of the follower auto-move over one changed leader. -/
def folLeader (t : ℕ) (msa : List (String × ℕ)) (fol : Links) (st : FolState)
    (lead : String) : FolState :=
  let followers := (aget fol lead).getD []
  if followers = [] then st
  else
    match aget st.currMap lead with
    | some leaderNew =>
      let startT := (aget msa lead).getD t
      followers.foldl (folFollower t startT leaderNew) st
    | none => st

/-- `RecordingManager.save_step`. -/
def saveStep (rm : RM) (sc : Scene) : RM × Scene :=
  let t : ℕ := (pyRound rm.step).toNat
  let pf := prevFullSnapshot rm ((t : ℤ) - 1)
  let prevFull := pf.1
  let rm1 := pf.2
  if t = 0 ∨ prevFull = none then
    let playersSnap := currMapOf sc
    ({ rm1 with
        data := aset rm1.data (t : ℤ) { players := playersSnap, disc := some sc.disc },
        cache := rm1.cache.filter (fun kv => kv.1 < t),
        moveStartedAt := playersSnap.foldl (fun m kv => aset m kv.1 t) rm1.moveStartedAt },
     sc)
  else
    let prev := prevFull.getD { players := [], disc := none }
    let currMap := currMapOf sc
    let cl := currMap.foldl (fun (acc : List (String × Pos) × List String) kv =>
        if posChanged (aget prev.players kv.1) kv.2 then
          (aset acc.1 kv.1 kv.2, acc.2 ++ [kv.1])
        else acc) ([], [])
    let changed := cl.1
    let leadersChanged := cl.2
    let mid :=
      if rm1.mode = Mode.recording ∧ changed ≠ [] then
        let fol := rm1.followersCache.getD (rebuildFollowers rm1.links)
        let msa := leadersChanged.foldl (fun m l => aset m l t) rm1.moveStartedAt
        let fs := leadersChanged.foldl (folLeader t msa fol)
          { sc := sc, currMap := currMap, changed := changed }
        ({ rm1 with moveStartedAt := msa, followersCache := some fol }, fs.sc, fs.changed)
      else (rm1, sc, changed)
    let rm2 := mid.1
    let sc2 := mid.2.1
    let changed2 := mid.2.2
    let discPos := sc2.disc
    let discChanged := posChanged prev.disc discPos
    let entry : Entry := { players := changed2, disc := if discChanged then some discPos else none }
    ({ rm2 with
        data := aset rm2.data (t : ℤ) entry,
        cache := rm2.cache.filter (fun kv => kv.1 < t) },
     sc2)

/-- `RecordingManager.next_step`: `self.step = float(int(self.step) + 1)`. -/
def nextStep (rm : RM) : RM := { rm with step := ((pyInt rm.step + 1 : ℤ) : ℚ) }

/-- `RecordingManager.start_recording` (links and followers cache survive). -/
def startRecording (rm : RM) : RM :=
  { rm with mode := .recording, data := [], step := 0, maxStep := 0,
            cache := [], moveStartedAt := [] }

/-- `RecordingManager.finish_recording`. -/
def finishRecording (rm : RM) (sc : Scene) : RM × Scene :=
  let r := saveStep rm sc
  let rm1 := r.1
  let mx : ℚ := if rm1.data = [] then 0 else ((maxKey rm1.data : ℤ) : ℚ)
  ({ rm1 with maxStep := mx, mode := .playback, step := qclamp rm1.step 0 mx }, r.2)

/-! ## Playback (`update_playback`) -/

/-- The integer-step application loop of `update_playback`: write each
snapshot position into the scene at the player-index-map position of its
label (the index map `pim` is computed once, before the loop). -/
def applySnapPairs (pim : String → Option ℕ) (acc : List Player)
    (prs : List (String × Pos)) : List Player :=
  prs.foldl (fun a lp =>
    match pim lp.1 with
    | some idx => setPlayerPos a idx lp.2
    | none => a) acc

/-- One label of the fractional-step interpolation loop of `update_playback`:
blend when present in both snapshots, copy when present in only one. -/
def interpStep (pim : String → Option ℕ) (s0p s1p : List (String × Pos)) (a : ℚ)
    (ps : List Player) (lab : String) : List Player :=
  match aget s0p lab, aget s1p lab with
  | none, some p1 =>
    match pim lab with
    | some idx => setPlayerPos ps idx p1
    | none => ps
  | some p0, none =>
    match pim lab with
    | some idx => setPlayerPos ps idx p0
    | none => ps
  | some p0, some p1 =>
    match pim lab with
    | some idx => setPlayerPos ps idx (p0.1 + a * (p1.1 - p0.1), p0.2 + a * (p1.2 - p0.2))
    | none => ps
  | none, none => ps

/-- The fractional-step interpolation loop of `update_playback` over the union
of the two snapshots' labels. -/
def interpPlayers (pim : String → Option ℕ) (s0p s1p : List (String × Pos)) (a : ℚ)
    (acc : List Player) (labs : List String) : List Player :=
  labs.foldl (interpStep pim s0p s1p a) acc

/-- `RecordingManager.update_playback`. -/
def updatePlayback (rm : RM) (sc : Scene) (t : ℚ) : RM × Scene :=
  if rm.data = [] then (rm, sc)
  else
    let t := qclamp t 0 rm.maxStep
    let sc := if sc.players = [] then { sc with players := spawnPlayers } else sc
    let i0 : ℕ := (⌊t⌋).toNat
    let i1 : ℕ := (⌈t⌉).toNat
    let b0 := buildSnapshot rm i0
    let snap0 := b0.1
    let rm := b0.2
    if i0 = i1 then
      let pim := labelIdx sc.players
      let sc := { sc with players := applySnapPairs pim sc.players snap0.players }
      let sc :=
        match snap0.disc with
        | some d => { sc with disc := d }
        | none => sc
      ({ rm with step := t }, sc)
    else
      let b0' := buildSnapshot rm i0
      let s0 := b0'.1
      let b1 := buildSnapshot b0'.2 i1
      let s1 := b1.1
      let rm := b1.2
      let a := t - (i0 : ℚ)
      let pim := labelIdx sc.players
      let labs := (s0.players.map Prod.fst ++ s1.players.map Prod.fst).dedup
      let sc := { sc with players := interpPlayers pim s0.players s1.players a sc.players labs }
      let sc :=
        match s0.disc, s1.disc with
        | none, none => sc
        | sd0, sd1 =>
          let d0 := sd0.getD (sd1.getD (0, 0))
          let d1 := sd1.getD (sd0.getD (0, 0))
          { sc with disc := (d0.1 + a * (d1.1 - d0.1), d0.2 + a * (d1.2 - d0.2)) }
      ({ rm with step := t }, sc)

/-! ## Continuous mode: dragging and follow scheduling (`Scene`) -/

/-- `Scene._schedule_follow(follower_idx, target_pos)` with default
delay/duration taken from the scene (the only call site passes neither). -/
def scheduleFollow (sc : Scene) (followerIdx : ℕ) (target : Pos) : Scene :=
  if sc.players.length ≤ followerIdx then sc
  else
    match sc.players.get? followerIdx with
    | some fp =>
      let tasks := sc.followTasks.filter (fun tk => tk.follower ≠ followerIdx)
      { sc with followTasks := tasks ++
          [{ follower := followerIdx, start := fp.pos, target := target,
             delay := sc.followDelay, time := 0, duration := sc.followDuration }] }
    | none => sc

/-- The drag target: a player index or the disc. -/
inductive Tag
  | player (i : ℕ)
  | disc

/-- The per-axis grid snapping of `Scene.move_entity`. -/
def snapAxis (n : ℚ) : ℚ :=
  let g := ((pyRound (n * 2) : ℤ) : ℚ) / 2
  let d := n - g
  if |d| ≤ snapHard then g
  else if |d| ≤ snapSoft then n - d * snapPull
  else n

/-- The loop body of `move_entity` over one committed pair: if the moved
player's label is in the pair, the *other* member (whichever it is) is
scheduled as follower toward the new position. -/
def moveLinkStep (leaderLabel : String) (nxy : Pos) (acc : Scene) (pr : LPair) : Scene :=
  if leaderLabel ∈ pairList pr then
    match (pairList pr).filter (fun l => l ≠ leaderLabel) with
    | [] => acc
    | other :: _ =>
      match labelIdx acc.players other with
      | some fidx => scheduleFollow acc fidx nxy
      | none => acc
  else acc

/-- `Scene.move_entity(tag, nx, ny)`: snap, clamp into the field, store, and —
for players — schedule the other member of every committed pair containing the
moved player's label as a follower toward the new position. -/
def moveEntity (sc : Scene) (tag : Tag) (nx0 ny0 : ℚ) : Scene :=
  let nx := qclamp (snapAxis nx0) 0 fieldLen
  let ny := qclamp (snapAxis ny0) 0 fieldWid
  match tag with
  | .player i =>
    match sc.players.get? i with
    | none => sc
    | some pl =>
      let sc := { sc with players := setPlayerPos sc.players i (nx, ny) }
      let leaderLabel := pl.label
      sc.links.foldl (moveLinkStep leaderLabel (nx, ny)) sc
  | .disc => { sc with disc := (nx, ny) }

/-- Link creation in `main` (linking mode, second click):
`scene.links.add(frozenset([leader, follower]))`, `leader` being the
first-selected player. -/
def addLink (sc : Scene) (leader follower : String) : Scene :=
  if sc.links.any (fun pr => pairEq pr { a := leader, b := follower }) then sc
  else { sc with links := sc.links ++ [{ a := leader, b := follower }] }

/-! ## CSV imports -/

/-- A numeric CSV field as seen by `float(row.get(key, 0.0))`: absent
(defaulting to `0.0`), a parseable number, or malformed text that makes
`float` raise. -/
inductive NumField
  | missing
  | num (q : ℚ)
  | bad

/-- `float(row.get(key, 0.0))` as a fallible computation. -/
def parseNum : NumField → Option ℚ
  | .missing => some 0
  | .num q => some q
  | .bad => none

/-- An integer CSV field as seen by `int(row.get("step", 0))`. -/
inductive IntField
  | missing
  | num (z : ℤ)
  | bad

/-- `int(row.get("step", 0))` as a fallible computation. -/
def parseStep : IntField → Option ℤ
  | .missing => some 0
  | .num z => some z
  | .bad => none

/-- One row of a position CSV as read by `csv.DictReader` in `import_csv`. -/
structure CsvRow where
  entity : String
  team : String
  label : Option String
  x : NumField
  y : NumField

/-- The row loop of `import_csv`: accumulate players and the disc; the first
malformed coordinate raises and aborts the whole function (there is no
per-row `try`). -/
def importCsvLoop : List CsvRow → List Player → Option Pos →
    Option (List Player × Option Pos)
  | [], ps, d => some (ps, d)
  | r :: rest, ps, d =>
    match parseNum r.x, parseNum r.y with
    | some x0, some y0 =>
      let x := qclamp x0 0 fieldLen
      let y := qclamp y0 0 fieldWid
      let ent := r.entity.toLower
      if ent = "player" ∧ (r.team = "Blue" ∨ r.team = "Red") then
        importCsvLoop rest (ps ++ [{ team := r.team, label := r.label.getD "", pos := (x, y) }]) d
      else if ent = "disc" then importCsvLoop rest ps (some (x, y))
      else importCsvLoop rest ps d
    | _, _ => none

/-- `import_csv(scene, filename)`: on any exception return `False` leaving the
scene untouched; otherwise apply nonempty results and return `True`. -/
def importCsv (sc : Scene) (rows : List CsvRow) : Bool × Scene :=
  match importCsvLoop rows [] none with
  | none => (false, sc)
  | some pd =>
    let sc := if pd.1 ≠ [] then { sc with players := pd.1 } else sc
    let sc :=
      match pd.2 with
      | some dp => { sc with disc := dp }
      | none => sc
    (true, sc)

/-- One row of a strategy CSV as read by `csv.DictReader` in `import_strategy`. -/
structure StratRow where
  step : IntField
  entity : String
  label : String
  x : NumField
  y : NumField

/-- The row loop of `import_strategy` building `raw`: a malformed step or
coordinate `continue`s past just that row; a recognized entity is stored into
the step's record (the record itself is created even for unknown entities). -/
def importStrategyRaw (rows : List StratRow) : List (ℤ × Entry) :=
  rows.foldl (fun raw r =>
    match parseStep r.step with
    | none => raw
    | some st =>
      let ent := r.entity.toLower
      match parseNum r.x, parseNum r.y with
      | some x0, some y0 =>
        let x := qclamp x0 0 fieldLen
        let y := qclamp y0 0 fieldWid
        let raw := if (aget raw st).isSome then raw else aset raw st { players := [], disc := none }
        let e := (aget raw st).getD { players := [], disc := none }
        if ent = "player" then aset raw st { e with players := aset e.players r.label (x, y) }
        else if ent = "disc" then aset raw st { e with disc := some (x, y) }
        else raw
      | _, _ => raw) []

/-- `import_strategy(recorder, scene, filename)`: install the parsed timeline
(note: the snapshot cache is *not* cleared), respawn the scene's players, and
apply step 0 if present. -/
def importStrategy (rm : RM) (sc : Scene) (rows : List StratRow) : Bool × RM × Scene :=
  let raw := importStrategyRaw rows
  if raw ≠ [] then
    let rm := { rm with data := raw, maxStep := ((maxKey raw : ℤ) : ℚ),
                        mode := .playback, step := 0 }
    let sc := { sc with players := spawnPlayers }
    let r := if (aget raw 0).isSome then updatePlayback rm sc 0 else (rm, sc)
    (true, r.1, r.2)
  else (false, rm, sc)

/-! ## General lemmas about the cache and reconstruction -/

section CacheLemmas

variable {α : Type}

theorem aget_filter_lt (d : List (ℕ × α)) (k t : ℕ) (hk : k < t) :
    aget (d.filter (fun kv => kv.1 < t)) k = aget d k := by
  induction d with
  | nil => rfl
  | cons p d ih =>
    obtain ⟨k', v⟩ := p
    by_cases hk' : k' = k
    · subst hk'
      simp [List.filter_cons, hk, aget, ih]
    · by_cases ht : k' < t <;> simp [List.filter_cons, ht, aget, hk', ih]

theorem aget_filter_ge (d : List (ℕ × α)) (k t : ℕ) (hk : t ≤ k) :
    aget (d.filter (fun kv => kv.1 < t)) k = none := by
  induction d with
  | nil => rfl
  | cons p d ih =>
    obtain ⟨k', v⟩ := p
    by_cases ht : k' < t
    · have hne : k' ≠ k := fun h => absurd (h ▸ ht) (not_lt.2 hk)
      simp [List.filter_cons, ht, aget, hne, ih]
    · simp [List.filter_cons, ht, ih]

end CacheLemmas

/-- Cached snapshots of `build_snapshot` are never dropped or overwritten by
`build_snapshot` itself, only added. -/
theorem buildSnapshot_cache_preserve (rm : RM) (j k : ℕ) (s : Snap)
    (h : aget rm.cache k = some s) : aget (buildSnapshot rm j).2.cache k = some s := by
  unfold buildSnapshot
  cases hc : aget rm.cache j with
  | some s' => simpa using h
  | none =>
    have hne : k ≠ j := fun he => by rw [he, hc] at h; exact Option.noConfusion h
    by_cases hl : rm.links = [] <;> simp [hl, aget_aset_ne _ _ _ _ hne, h]

/-- `_prev_full_snapshot` likewise only adds cache entries. -/
theorem prevFullSnapshot_cache_preserve (rm : RM) (tm1 : ℤ) (k : ℕ) (s : Snap)
    (h : aget rm.cache k = some s) :
    aget (prevFullSnapshot rm tm1).2.cache k = some s := by
  unfold prevFullSnapshot
  by_cases h1 : tm1 < 0 ∨ rm.data = []
  · rw [if_pos h1]
    exact h
  · rw [if_neg h1]
    by_cases h2 : tm1 = 0 ∧ (aget rm.data 0).isSome
    · rw [if_pos h2]
      exact buildSnapshot_cache_preserve rm 0 k s h
    · rw [if_neg h2]
      by_cases h3 : (aget rm.data tm1).isSome ∨ tm1 ≤ maxKey rm.data
      · rw [if_pos h3]
        exact buildSnapshot_cache_preserve rm tm1.toNat k s h
      · rw [if_neg h3]
        exact h

/-- Coherence of a `RecordingManager` state: every cached snapshot agrees with
the pure reconstruction from the current records and links, and the followers
cache, when present, agrees with the current link graph. -/
def Coherent (rm : RM) : Prop :=
  (∀ k s, aget rm.cache k = some s → s = reconstructPure rm.data rm.links k) ∧
  (rm.followersCache = none ∨ rm.followersCache = some (rebuildFollowers rm.links))

/-- The effect of one `build_snapshot` call on the manager state: records,
links and step bound are untouched; the followers cache is untouched or set to
the value it lazily takes; the snapshot cache is untouched except possibly at
the requested step, where it holds the returned snapshot. -/
theorem buildSnapshot_spec (rm : RM) (k : ℕ) :
    ((buildSnapshot rm k).2.data = rm.data ∧
     (buildSnapshot rm k).2.links = rm.links ∧
     (buildSnapshot rm k).2.maxStep = rm.maxStep) ∧
    ((buildSnapshot rm k).2.followersCache = rm.followersCache ∨
     (buildSnapshot rm k).2.followersCache =
       some (rm.followersCache.getD (rebuildFollowers rm.links))) ∧
    (∀ k', aget (buildSnapshot rm k).2.cache k' = aget rm.cache k' ∨
        (k' = k ∧ aget (buildSnapshot rm k).2.cache k' = some (buildSnapshot rm k).1)) := by
  unfold buildSnapshot
  cases hc : aget rm.cache k with
  | some s => exact ⟨⟨rfl, rfl, rfl⟩, Or.inl rfl, fun k' => Or.inl rfl⟩
  | none =>
    by_cases hl : rm.links = []
    · rw [if_pos hl]
      refine ⟨⟨rfl, rfl, rfl⟩, Or.inl rfl, fun k' => ?_⟩
      by_cases hk : k' = k
      · subst hk
        exact Or.inr ⟨rfl, aget_aset_self _ _ _⟩
      · exact Or.inl (aget_aset_ne _ _ _ _ hk)
    · rw [if_neg hl]
      refine ⟨⟨rfl, rfl, rfl⟩, Or.inr rfl, fun k' => ?_⟩
      by_cases hk : k' = k
      · subst hk
        exact Or.inr ⟨rfl, aget_aset_self _ _ _⟩
      · exact Or.inl (aget_aset_ne _ _ _ _ hk)

/-- Under coherence, the stateful `build_snapshot` returns the pure
reconstruction. -/
theorem buildSnapshot_fst (rm : RM) (k : ℕ) (h : Coherent rm) :
    (buildSnapshot rm k).1 = reconstructPure rm.data rm.links k := by
  unfold buildSnapshot
  cases hc : aget rm.cache k with
  | some s => exact h.1 k s hc
  | none =>
    by_cases hl : rm.links = []
    · rw [if_pos hl]
      show ({ players := (pass1 rm.data rm.links k).players,
              disc := (pass1 rm.data rm.links k).disc } : Snap) = _
      rw [hl]
      rfl
    · rw [if_neg hl]
      show ({ players := pass2 k (pass1 rm.data rm.links k).moveStarts
                (rm.followersCache.getD (rebuildFollowers rm.links))
                (pass1 rm.data rm.links k).players,
              disc := (pass1 rm.data rm.links k).disc } : Snap) = _
      rcases h.2 with h2 | h2 <;> rw [h2] <;> rfl

/-- `build_snapshot` preserves coherence. -/
theorem buildSnapshot_coherent (rm : RM) (k : ℕ) (h : Coherent rm) :
    Coherent (buildSnapshot rm k).2 := by
  obtain ⟨⟨hd, hl, _⟩, hfc, hca⟩ := buildSnapshot_spec rm k
  constructor
  · intro k' s' h'
    rw [hd, hl]
    rcases hca k' with he | ⟨hk, he⟩
    · rw [he] at h'
      exact h.1 k' s' h'
    · subst hk
      rw [he] at h'
      injection h' with h''
      rw [← h'']
      exact buildSnapshot_fst rm k' h
  · rw [hl]
    rcases hfc with he | he
    · rw [he]
      exact h.2
    · rw [he]
      rcases h.2 with h2 | h2 <;> rw [h2] <;> simp

/-! ## C5: out-of-range playback queries clamp -/

theorem qclamp_of_gt {t m : ℚ} (h : m < t) : qclamp t 0 m = qclamp m 0 m := by
  simp [qclamp, min_eq_left h.le, min_self]

theorem qclamp_of_lt {t m : ℚ} (h : t < 0) (hm : 0 ≤ m) : qclamp t 0 m = qclamp 0 0 m := by
  have h1 : min m t = t := min_eq_right (h.le.trans hm)
  have h2 : min m 0 = 0 := min_eq_right hm
  simp [qclamp, h1, h2, max_eq_left h.le]

/-- `update_playback` depends on its time argument only through the clamp. -/
theorem updatePlayback_congr (rm : RM) (sc : Scene) {t t' : ℚ}
    (h : qclamp t 0 rm.maxStep = qclamp t' 0 rm.maxStep) :
    updatePlayback rm sc t = updatePlayback rm sc t' := by
  unfold updatePlayback
  rw [h]

/-- C5: playback step queries clamp instead of failing: a query beyond
`maxStep` behaves exactly like a query at `maxStep`, and a negative query
exactly like a query at `0` (the embedded `update_playback` is a total
function, so no out-of-range query can fault). -/
theorem c5_playback_clamps (rm : RM) (sc : Scene) (t : ℚ) (hmax : 0 ≤ rm.maxStep) :
    (rm.maxStep < t → updatePlayback rm sc t = updatePlayback rm sc rm.maxStep) ∧
    (t < 0 → updatePlayback rm sc t = updatePlayback rm sc 0) := by
  constructor
  · intro h
    exact updatePlayback_congr rm sc (qclamp_of_gt h)
  · intro h
    exact updatePlayback_congr rm sc (qclamp_of_lt h hmax)

/-- Sample state for the C5 witness: a two-step timeline. -/
def c5rm : RM :=
  { rmInit with
    mode := .playback
    maxStep := 2
    data := [(0, { players := [("A", ((0:ℚ), (0:ℚ)))], disc := some (1, 1) }),
             (1, { players := [("A", ((2:ℚ), (2:ℚ)))], disc := none }),
             (2, { players := [], disc := none })] }

def c5sc : Scene :=
  { players := [{ team := "Blue", label := "A", pos := (9, 9) }],
    disc := (0, 0), links := [], followTasks := [],
    followDelay := 7/20, followDuration := 7/20 }

theorem c5_playback_clamps_witness :
    updatePlayback c5rm c5sc 5 = updatePlayback c5rm c5sc c5rm.maxStep ∧
    updatePlayback c5rm c5sc (-1) = updatePlayback c5rm c5sc 0 :=
  ⟨(c5_playback_clamps c5rm c5sc 5 (of_decide_eq_true (by with_unfolding_all rfl))).1
      (of_decide_eq_true (by with_unfolding_all rfl)),
   (c5_playback_clamps c5rm c5sc (-1) (of_decide_eq_true (by with_unfolding_all rfl))).2
      (of_decide_eq_true (by with_unfolding_all rfl))⟩

/-! ## C6: writing a record at step `t` drops cached snapshots `≥ t`, keeps `< t` -/

/-- Whatever branch `save_step` takes, the resulting snapshot cache is the
filter `< t` of a cache that preserves all of the old cache's entries. -/
theorem saveStep_cache_shape (rm : RM) (sc : Scene) :
    ∃ c : List (ℕ × Snap),
      (saveStep rm sc).1.cache = c.filter (fun kv => kv.1 < (pyRound rm.step).toNat) ∧
      (∀ k s, aget rm.cache k = some s → aget c k = some s) := by
  simp only [saveStep]
  by_cases h0 : (pyRound rm.step).toNat = 0 ∨
      (prevFullSnapshot rm (((pyRound rm.step).toNat : ℤ) - 1)).1 = none
  · rw [if_pos h0]
    exact ⟨(prevFullSnapshot rm (((pyRound rm.step).toNat : ℤ) - 1)).2.cache, rfl,
      fun k s h => prevFullSnapshot_cache_preserve rm _ k s h⟩
  · rw [if_neg h0]
    refine ⟨(prevFullSnapshot rm (((pyRound rm.step).toNat : ℤ) - 1)).2.cache, ?_,
      fun k s h => prevFullSnapshot_cache_preserve rm _ k s h⟩
    split <;> rfl

/-- C6: committing at step `t` (`save_step`, including the baseline branch)
discards every cached snapshot at a step `≥ t` and retains every cached
snapshot at a step `< t`. -/
theorem c6_cache_invalidation (rm : RM) (sc : Scene) :
    (∀ k, (pyRound rm.step).toNat ≤ k → aget (saveStep rm sc).1.cache k = none) ∧
    (∀ k s, k < (pyRound rm.step).toNat → aget rm.cache k = some s →
      aget (saveStep rm sc).1.cache k = some s) := by
  obtain ⟨c, hc, hpres⟩ := saveStep_cache_shape rm sc
  constructor
  · intro k hk
    rw [hc]
    exact aget_filter_ge _ _ _ hk
  · intro k s hk hs
    rw [hc, aget_filter_lt _ _ _ hk]
    exact hpres k s hs

/-- Sample state for the C6 witness: committing step 2 with snapshots for
steps 1 and 2 cached. -/
def c6snap1 : Snap := { players := [("A", ((1:ℚ), (1:ℚ)))], disc := none }

def c6snap2 : Snap := { players := [("A", ((2:ℚ), (2:ℚ)))], disc := none }

def c6rm : RM :=
  { rmInit with
    mode := .recording
    step := 2
    data := [(0, { players := [("A", ((0:ℚ), (0:ℚ)))], disc := some (0, 0) }),
             (1, { players := [("A", ((1:ℚ), (1:ℚ)))], disc := none })]
    cache := [(1, c6snap1), (2, c6snap2)] }

def c6sc : Scene :=
  { players := [{ team := "Blue", label := "A", pos := (1, 1) }],
    disc := (0, 0), links := [], followTasks := [],
    followDelay := 7/20, followDuration := 7/20 }

theorem c6_cache_invalidation_witness :
    aget (saveStep c6rm c6sc).1.cache 2 = none ∧
    aget (saveStep c6rm c6sc).1.cache 1 = some c6snap1 :=
  ⟨(c6_cache_invalidation c6rm c6sc).1 2 (of_decide_eq_true (by with_unfolding_all rfl)),
   (c6_cache_invalidation c6rm c6sc).2 1 c6snap1
     (of_decide_eq_true (by with_unfolding_all rfl)) (by with_unfolding_all rfl)⟩

/-! ## C7: reconstruction after editing links -/

/-- When the requested step is not cached and the followers cache is unset,
`build_snapshot` computes the pure reconstruction from the current links. -/
theorem buildSnapshot_fresh (rm : RM) (step : ℕ) (hc : aget rm.cache step = none)
    (hf : rm.followersCache = none) :
    (buildSnapshot rm step).1 = reconstructPure rm.data rm.links step := by
  unfold buildSnapshot
  cases hcc : aget rm.cache step with
  | some s =>
    rw [hc] at hcc
    cases hcc
  | none =>
    by_cases hl : rm.links = []
    · rw [if_pos hl]
      show ({ players := (pass1 rm.data rm.links step).players,
              disc := (pass1 rm.data rm.links step).disc } : Snap) = _
      rw [hl]
      rfl
    · rw [if_neg hl]
      show ({ players := pass2 step (pass1 rm.data rm.links step).moveStarts
                (rm.followersCache.getD (rebuildFollowers rm.links))
                (pass1 rm.data rm.links step).players,
              disc := (pass1 rm.data rm.links step).disc } : Snap) = _
      rw [hf]
      rfl

/-- Timeline for the C7 counterexample: `L` at `(0,0)` and `F` at `(9,9)` in
the baseline, `L` moves to `(5,5)` at step 1; recorded without any link. -/
def c7data : List (ℤ × Entry) :=
  [(0, { players := [("L", ((0:ℚ), (0:ℚ))), ("F", ((9:ℚ), (9:ℚ)))], disc := none }),
   (1, { players := [("L", ((5:ℚ), (5:ℚ)))], disc := none })]

def c7rm0 : RM :=
  { rmInit with
    mode := .playback
    data := c7data
    maxStep := 1 }

/-- Reconstruct step 1 once (this caches the snapshot). -/
def c7rm1 : RM := (buildSnapshot c7rm0 1).2

/-- Then edit the link graph after recording: `L → F` with delay 0. -/
def c7rm2 : RM := linkPlayers c7rm1 "L" "F" 0

/-- C7 counterexample: after the `link_players` edit, reconstructing step 1
again returns the stale cached snapshot (`F` at `(9,9)`), although the current
link definitions demand `F` at `L`'s position `(5,5)`: link mutations do not
invalidate the snapshot cache, so the claim fails for steps that were already
reconstructed before the mutation. -/
theorem c7_stale_cache_counterexample :
    aget (buildSnapshot c7rm2 1).1.players "F" = some (9, 9) ∧
    aget (reconstructPure c7rm2.data c7rm2.links 1).players "F" = some (5, 5) := by
  constructor <;> with_unfolding_all rfl

/-- C7 amended: after a `link_players` edit (non-self, which is a no-op) or
any `unlink_player` edit, a subsequent reconstruct of any step *not in the
snapshot cache* is recomputed from the current link definitions (the followers
index is invalidated by the mutation); cached steps keep their stale snapshot
(see the counterexample). -/
theorem c7_reconstruct_after_link_edit (rm : RM) (l f : String) (d : ℤ)
    (fo lo : Option String) (step : ℕ) (hne : l ≠ f)
    (h1 : aget rm.cache step = none) :
    (buildSnapshot (linkPlayers rm l f d) step).1 =
      reconstructPure rm.data (linkPlayers rm l f d).links step ∧
    (buildSnapshot (unlinkPlayer rm fo lo) step).1 =
      reconstructPure rm.data (unlinkPlayer rm fo lo).links step := by
  constructor
  · have hfc : (linkPlayers rm l f d).followersCache = none := by
      simp [linkPlayers, hne]
    have hca : aget (linkPlayers rm l f d).cache step = none := by
      simpa [linkPlayers, hne] using h1
    have hd : (linkPlayers rm l f d).data = rm.data := by
      simp [linkPlayers, hne]
    rw [← hd]
    exact buildSnapshot_fresh _ step hca hfc
  · have hca : aget (unlinkPlayer rm fo lo).cache step = none := h1
    rw [show rm.data = (unlinkPlayer rm fo lo).data from rfl]
    exact buildSnapshot_fresh _ step hca rfl

theorem c7_reconstruct_after_link_edit_witness :
    (buildSnapshot (linkPlayers c7rm0 "L" "F" 0) 1).1 =
      reconstructPure c7rm0.data (linkPlayers c7rm0 "L" "F" 0).links 1 ∧
    (buildSnapshot (unlinkPlayer c7rm0 (some "F") none) 1).1 =
      reconstructPure c7rm0.data (unlinkPlayer c7rm0 (some "F") none).links 1 :=
  c7_reconstruct_after_link_edit c7rm0 "L" "F" 0 (some "F") none 1
    (of_decide_eq_true (by with_unfolding_all rfl)) (by with_unfolding_all rfl)

/-! ## C2: follower forcing at commit time (`save_step`) -/

/-- Scene for the C2 run: players `A` at `(0,0)` and `B` at `(10,10)`. -/
def c2sc : Scene :=
  { players := [{ team := "Blue", label := "A", pos := (0, 0) },
                { team := "Blue", label := "B", pos := (10, 10) }],
    disc := (0, 0), links := [], followTasks := [],
    followDelay := 7/20, followDuration := 7/20 }

/-- Recorder with the discrete edge `A → B`, delay 2, recording started. -/
def c2rm : RM := startRecording { rmInit with links := [("A", [("B", 2)])] }

/-- Commit the baseline at step 0. -/
def c2s1 : RM × Scene := saveStep c2rm c2sc

/-- Drag `A` to `(5,5)` while editing step 1. -/
def c2sc1 : Scene := { c2s1.2 with players := setPlayerPos c2s1.2.players 0 (5, 5) }

/-- Commit step 1 (leader `A` moves). -/
def c2s2 : RM × Scene := saveStep (nextStep c2s1.1) c2sc1

/-- Commit step 2 (nothing dragged). -/
def c2s3 : RM × Scene := saveStep (nextStep c2s2.1) c2s2.2

/-- Commit step 3 (nothing dragged); by the claim, `3 - moveStart[A] = 2 ≥ 2`
should force `B` to `(5,5)` and capture that in step 3's record. -/
def c2s4 : RM × Scene := saveStep (nextStep c2s3.1) c2s3.2

/-- C2 failing run: with edge `A→B(delay=2)` and `A`'s move committed at
step 1 (`moveStartedAt A = 1`), committing step 3 satisfies
`t - moveStart[A] = 2 ≥ 2`, yet `save_step` stores an *empty* record at
step 3 and leaves the live `B` at `(10,10)`: the follower-forcing rule of the
claim never fires for a leader that did not move at step `t` itself, because
`save_step` only examines leaders in `leaders_changed` (and refreshes their
move start to `t` first). The reconstruction of step 3 nevertheless yields
`B = (5,5)`, confirming the forced teleport is what the recorded data was
supposed to contain. -/
theorem c2_save_step_no_delayed_forcing :
    aget c2s4.1.links "A" = some [("B", 2)] ∧
    aget c2s4.1.moveStartedAt "A" = some 1 ∧
    aget c2s4.1.data 3 = some { players := [], disc := none } ∧
    c2s4.2.players.get? 1 = some { team := "Blue", label := "B", pos := (10, 10) } ∧
    aget (reconstructPure c2s4.1.data c2s4.1.links 3).players "B" = some (5, 5) := by
  refine ⟨?_, ?_, ?_, ?_, ?_⟩ <;> with_unfolding_all rfl

/-! ## C8: malformed rows in CSV imports -/

/-- A strategy row the loop `continue`s past: bad step or bad coordinate. -/
theorem importStrategyRaw_skips_bad_row (pre post : List StratRow) (r : StratRow)
    (hr : parseStep r.step = none ∨ parseNum r.x = none ∨ parseNum r.y = none) :
    importStrategyRaw (pre ++ r :: post) = importStrategyRaw (pre ++ post) := by
  unfold importStrategyRaw
  rw [List.foldl_append, List.foldl_append, List.foldl_cons]
  congr 1
  rcases hr with hr | hr | hr
  · simp [hr]
  · cases hs : parseStep r.step
    · simp [hs]
    · cases hy : parseNum r.y <;> simp [hs, hr, hy]
  · cases hs : parseStep r.step
    · simp [hs]
    · cases hx : parseNum r.x <;> simp [hs, hr, hx]

/-- The position-import loop raises (returns `none`) at the first malformed
coordinate, whatever came before or comes after. -/
theorem importCsvLoop_aborts (pre : List CsvRow) (r : CsvRow) (post : List CsvRow)
    (hr : parseNum r.x = none ∨ parseNum r.y = none)
    (hpre : ∀ p ∈ pre, parseNum p.x ≠ none ∧ parseNum p.y ≠ none) :
    ∀ (ps : List Player) (d : Option Pos), importCsvLoop (pre ++ r :: post) ps d = none := by
  induction pre with
  | nil =>
    intro ps d
    rcases hr with hr | hr
    · cases hy : parseNum r.y <;> simp [importCsvLoop, hr, hy]
    · cases hx : parseNum r.x <;> simp [importCsvLoop, hr, hx]
  | cons p pre ih =>
    intro ps d
    obtain ⟨hx, hy⟩ := hpre p (List.mem_cons_self p pre)
    obtain ⟨x0, hx0⟩ := Option.ne_none_iff_exists'.1 hx
    obtain ⟨y0, hy0⟩ := Option.ne_none_iff_exists'.1 hy
    have ih' := ih (fun q hq => hpre q (List.mem_cons_of_mem p hq))
    simp only [List.cons_append, importCsvLoop, hx0, hy0]
    split_ifs <;> exact ih' _ _

/-- C8 amended: in the *strategy* import, each row with a malformed step or
coordinate is skipped individually and the remaining rows are imported exactly
as if the bad row were absent; in the *position* import, a single malformed
row makes the whole import fail, returning `False` and leaving the scene
untouched (and neither import reports a count of skipped rows — the caller
only gets a success flag). -/
theorem c8_import_error_handling (pre post : List StratRow) (r : StratRow)
    (cpre cpost : List CsvRow) (cr : CsvRow) (sc : Scene)
    (hr : parseStep r.step = none ∨ parseNum r.x = none ∨ parseNum r.y = none)
    (hcr : parseNum cr.x = none ∨ parseNum cr.y = none)
    (hcpre : ∀ p ∈ cpre, parseNum p.x ≠ none ∧ parseNum p.y ≠ none) :
    importStrategyRaw (pre ++ r :: post) = importStrategyRaw (pre ++ post) ∧
    importCsv sc (cpre ++ cr :: cpost) = (false, sc) := by
  refine ⟨importStrategyRaw_skips_bad_row pre post r hr, ?_⟩
  unfold importCsv
  rw [importCsvLoop_aborts cpre cr cpost hcr hcpre]

/-- Concrete rows for C8: two well-formed player rows and one row whose
`x_m` field is not numeric. -/
def c8good1 : CsvRow :=
  { entity := "player", team := "Blue", label := some "A", x := .num 1, y := .num 2 }

def c8bad : CsvRow :=
  { entity := "player", team := "Blue", label := some "X", x := .bad, y := .num 2 }

def c8good2 : CsvRow :=
  { entity := "player", team := "Red", label := some "B", x := .num 3, y := .num 4 }

def c8sc : Scene :=
  { players := [{ team := "Blue", label := "Z", pos := (0, 0) }],
    disc := (0, 0), links := [], followTasks := [],
    followDelay := 7/20, followDuration := 7/20 }

/-- C8 counterexample: a position import containing one malformed row among
well-formed ones returns `False` with the scene untouched — the remaining rows
are *not* imported, although without the bad row the same import succeeds and
installs both players. A single bad row does abort the whole position import. -/
theorem c8_bad_row_aborts_counterexample :
    importCsv c8sc [c8good1, c8bad, c8good2] = (false, c8sc) ∧
    importCsv c8sc [c8good1, c8good2] =
      (true, { c8sc with players :=
        [{ team := "Blue", label := "A", pos := (1, 2) },
         { team := "Red", label := "B", pos := (3, 4) }] }) := by
  constructor <;> with_unfolding_all rfl

theorem c8_import_error_handling_witness :
    importStrategyRaw
        ([{ step := .num 0, entity := "player", label := "A", x := .num 1, y := .num 2 }] ++
          { step := .bad, entity := "player", label := "X",
            x := (.num 5 : NumField), y := (.num 5 : NumField) } ::
          [{ step := .num 1, entity := "player", label := "A", x := .num 3, y := .num 4 }]) =
      importStrategyRaw
        ([{ step := .num 0, entity := "player", label := "A", x := .num 1, y := .num 2 }] ++
          [{ step := .num 1, entity := "player", label := "A", x := .num 3, y := .num 4 }]) ∧
    importCsv c8sc ([c8good1] ++ c8bad :: [c8good2]) = (false, c8sc) :=
  c8_import_error_handling _ _ _ _ _ _ _
    (Or.inl (by with_unfolding_all rfl))
    (Or.inl (by with_unfolding_all rfl))
    (by
      intro p hp
      rw [List.mem_singleton] at hp
      subst hp
      exact ⟨of_decide_eq_true (by with_unfolding_all rfl),
             of_decide_eq_true (by with_unfolding_all rfl)⟩)

/-! ## Player-list lemmas -/

theorem setPlayerPos_length (ps : List Player) (i : ℕ) (p : Pos) :
    (setPlayerPos ps i p).length = ps.length := by
  induction ps generalizing i with
  | nil => rfl
  | cons q ps ih =>
    cases i with
    | zero => rfl
    | succ i => simp [setPlayerPos, ih]

theorem setPlayerPos_get_self {ps : List Player} {i : ℕ} {q : Player} (p : Pos)
    (h : ps.get? i = some q) :
    (setPlayerPos ps i p).get? i = some { q with pos := p } := by
  induction ps generalizing i with
  | nil => cases h
  | cons q' ps ih =>
    cases i with
    | zero =>
      cases h
      rfl
    | succ i => exact ih h

theorem setPlayerPos_get_ne (ps : List Player) (i j : ℕ) (p : Pos) (h : j ≠ i) :
    (setPlayerPos ps i p).get? j = ps.get? j := by
  induction ps generalizing i j with
  | nil => rfl
  | cons q ps ih =>
    cases i with
    | zero =>
      cases j with
      | zero => exact absurd rfl h
      | succ j => rfl
    | succ i =>
      cases j with
      | zero => rfl
      | succ j => exact ih i j (fun hh => h (congrArg Nat.succ hh))

theorem setPlayerPos_map_label (ps : List Player) (i : ℕ) (p : Pos) :
    (setPlayerPos ps i p).map Player.label = ps.map Player.label := by
  induction ps generalizing i with
  | nil => rfl
  | cons q ps ih =>
    cases i with
    | zero => rfl
    | succ i => simp [setPlayerPos, ih]

theorem labelIdx_congr {ps qs : List Player}
    (h : ps.map Player.label = qs.map Player.label) (lab : String) :
    labelIdx ps lab = labelIdx qs lab := by
  induction ps generalizing qs with
  | nil =>
    cases qs with
    | nil => rfl
    | cons q qs => cases h
  | cons p ps ih =>
    cases qs with
    | nil => cases h
    | cons q qs =>
      injection h with h1 h2
      simp only [labelIdx, ih h2, h1]

theorem labelIdx_lt {ps : List Player} {lab : String} {i : ℕ}
    (h : labelIdx ps lab = some i) : i < ps.length := by
  induction ps generalizing i with
  | nil => cases h
  | cons p ps ih =>
    simp only [labelIdx] at h
    cases hm : labelIdx ps lab with
    | some j =>
      rw [hm] at h
      injection h with h'
      subst h'
      exact Nat.succ_lt_succ (ih hm)
    | none =>
      rw [hm] at h
      by_cases hl : p.label = lab
      · rw [if_pos hl] at h
        injection h with h'
        subst h'
        exact Nat.succ_pos _
      · rw [if_neg hl] at h
        cases h

theorem labelIdx_get {ps : List Player} {lab : String} {i : ℕ}
    (h : labelIdx ps lab = some i) :
    ∃ q, ps.get? i = some q ∧ q.label = lab := by
  induction ps generalizing i with
  | nil => cases h
  | cons p ps ih =>
    simp only [labelIdx] at h
    cases hm : labelIdx ps lab with
    | some j =>
      rw [hm] at h
      injection h with h'
      subst h'
      exact ih hm
    | none =>
      rw [hm] at h
      by_cases hl : p.label = lab
      · rw [if_pos hl] at h
        injection h with h'
        subst h'
        exact ⟨p, rfl, hl⟩
      · rw [if_neg hl] at h
        cases h

theorem labelIdx_inj {ps : List Player} {lab lab' : String} {i : ℕ}
    (h : labelIdx ps lab = some i) (h' : labelIdx ps lab' = some i) : lab = lab' := by
  induction ps generalizing i with
  | nil => cases h
  | cons p ps ih =>
    simp only [labelIdx] at h h'
    cases hm : labelIdx ps lab with
    | some j =>
      rw [hm] at h
      injection h with he
      cases hm' : labelIdx ps lab' with
      | some j' =>
        rw [hm'] at h'
        injection h' with he'
        have : j = j' := by omega
        exact ih hm (this ▸ hm')
      | none =>
        rw [hm'] at h'
        by_cases hl : p.label = lab'
        · rw [if_pos hl] at h'
          injection h' with he'
          omega
        · rw [if_neg hl] at h'
          cases h'
    | none =>
      rw [hm] at h
      by_cases hl : p.label = lab
      · rw [if_pos hl] at h
        injection h with he
        cases hm' : labelIdx ps lab' with
        | some j' =>
          rw [hm'] at h'
          injection h' with he'
          omega
        | none =>
          rw [hm'] at h'
          by_cases hl' : p.label = lab'
          · rw [← hl, hl']
          · rw [if_neg hl'] at h'
            cases h'
      · rw [if_neg hl] at h
        cases h

/-! ## C10: every publicly stored position is clamped into the field -/

/-- A position lies inside the field: `0 ≤ x ≤ FIELD_LEN`, `0 ≤ y ≤ FIELD_WID`. -/
def inBounds (p : Pos) : Prop :=
  0 ≤ p.1 ∧ p.1 ≤ fieldLen ∧ 0 ≤ p.2 ∧ p.2 ≤ fieldWid

theorem qclamp_mem {v hi : ℚ} (h : 0 ≤ hi) :
    0 ≤ qclamp v 0 hi ∧ qclamp v 0 hi ≤ hi :=
  ⟨le_max_left _ _, max_le h (min_le_left _ _)⟩

theorem inBounds_mk {x y : ℚ} (h1 : 0 ≤ x) (h2 : x ≤ fieldLen) (h3 : 0 ≤ y)
    (h4 : y ≤ fieldWid) : inBounds (x, y) :=
  ⟨h1, h2, h3, h4⟩

theorem inBounds_clamped (nx0 ny0 : ℚ) :
    inBounds (qclamp (snapAxis nx0) 0 fieldLen, qclamp (snapAxis ny0) 0 fieldWid) := by
  have hx := @qclamp_mem (snapAxis nx0) fieldLen (by norm_num [fieldLen])
  have hy := @qclamp_mem (snapAxis ny0) fieldWid (by norm_num [fieldWid])
  exact ⟨hx.1, hx.2, hy.1, hy.2⟩

theorem scheduleFollow_players (sc : Scene) (j : ℕ) (t : Pos) :
    (scheduleFollow sc j t).players = sc.players := by
  unfold scheduleFollow
  split_ifs
  · rfl
  · cases sc.players.get? j <;> rfl

/-- One step of the link-scheduling loop never changes player records. -/
theorem moveLinkStep_players (leaderLabel : String) (nxy : Pos) (acc : Scene)
    (pr : LPair) : (moveLinkStep leaderLabel nxy acc pr).players = acc.players := by
  unfold moveLinkStep
  by_cases hmem : leaderLabel ∈ pairList pr
  · rw [if_pos hmem]
    cases hfil : (pairList pr).filter (fun l => l ≠ leaderLabel) with
    | nil => rfl
    | cons other rest =>
      dsimp only
      cases hli : labelIdx acc.players other with
      | some fidx =>
        dsimp only
        rw [scheduleFollow_players]
      | none => rfl
  · rw [if_neg hmem]

/-- The link-scheduling loop of `move_entity` never changes player records. -/
theorem moveEntity_fold_players (prs : List LPair) (leaderLabel : String) (nxy : Pos)
    (sc0 : Scene) :
    (prs.foldl (moveLinkStep leaderLabel nxy) sc0).players = sc0.players := by
  refine foldl_preserve (P := fun s => s.players = sc0.players) _
    (fun acc pr hacc => ?_) prs sc0 rfl
  show (moveLinkStep leaderLabel nxy acc pr).players = sc0.players
  rw [moveLinkStep_players]
  exact hacc

/-- Per-row bound preservation of the position-import loop. -/
theorem importCsvLoop_bounds (rows : List CsvRow) :
    ∀ (ps : List Player) (d : Option Pos) (res : List Player × Option Pos),
      (∀ p ∈ ps, inBounds p.pos) → (∀ dp, d = some dp → inBounds dp) →
      importCsvLoop rows ps d = some res →
      (∀ p ∈ res.1, inBounds p.pos) ∧ (∀ dp, res.2 = some dp → inBounds dp) := by
  induction rows with
  | nil =>
    intro ps d res hps hd h
    injection h with h'
    subst h'
    exact ⟨hps, hd⟩
  | cons r rows ih =>
    intro ps d res hps hd h
    unfold importCsvLoop at h
    cases hx : parseNum r.x with
    | none => rw [hx] at h; cases h
    | some x0 =>
      cases hy : parseNum r.y with
      | none => rw [hx, hy] at h; cases h
      | some y0 =>
        rw [hx, hy] at h
        dsimp only at h
        have hbx := @qclamp_mem x0 fieldLen (by norm_num [fieldLen])
        have hby := @qclamp_mem y0 fieldWid (by norm_num [fieldWid])
        split_ifs at h with h1 h2
        · refine ih _ _ _ (fun p hp => ?_) hd h
          rcases List.mem_append.1 hp with hp | hp
          · exact hps p hp
          · rw [List.mem_singleton.1 hp]
            exact inBounds_mk hbx.1 hbx.2 hby.1 hby.2
        · refine ih _ _ _ hps (fun dp hdp => ?_) h
          injection hdp with hdp'
          rw [← hdp']
          exact inBounds_mk hbx.1 hbx.2 hby.1 hby.2
        · exact ih _ _ _ hps hd h

/-- Entry-wise bound invariant for the strategy-import accumulator. -/
def rawBounded (raw : List (ℤ × Entry)) : Prop :=
  ∀ se ∈ raw, (∀ lp ∈ se.2.players, inBounds lp.2) ∧
    (∀ dp, se.2.disc = some dp → inBounds dp)

theorem importStrategyRaw_bounds (rows : List StratRow) :
    rawBounded (importStrategyRaw rows) := by
  unfold importStrategyRaw
  refine foldl_preserve _ (fun raw r hraw => ?_) rows [] (by intro se h; cases h)
  cases hs : parseStep r.step with
  | none => exact hraw
  | some st =>
    dsimp only
    cases hx : parseNum r.x with
    | none => exact hraw
    | some x0 =>
      cases hy : parseNum r.y with
      | none => exact hraw
      | some y0 =>
        dsimp only
        have hbx := @qclamp_mem x0 fieldLen (by norm_num [fieldLen])
        have hby := @qclamp_mem y0 fieldWid (by norm_num [fieldWid])
        have hraw' : rawBounded
            (if (aget raw st).isSome then raw else aset raw st { players := [], disc := none }) := by
          split_ifs
          · exact hraw
          · intro se hse
            rcases mem_aset hse with rfl | hse'
            · exact ⟨fun lp hlp => absurd hlp (List.not_mem_nil lp),
                     fun dp hdp => Option.noConfusion hdp⟩
            · exact hraw se hse'
        set raw' := if (aget raw st).isSome then raw else aset raw st { players := [], disc := none }
        have he : (∀ lp ∈ ((aget raw' st).getD { players := [], disc := none }).players,
              inBounds lp.2) ∧
            (∀ dp, ((aget raw' st).getD { players := [], disc := none }).disc = some dp →
              inBounds dp) := by
          cases hg : aget raw' st with
          | none =>
            exact ⟨fun lp hlp => absurd hlp (List.not_mem_nil lp),
                   fun dp hdp => Option.noConfusion hdp⟩
          | some e0 => exact hraw' (st, e0) (aget_mem hg)
        split_ifs
        · intro se hse
          rcases mem_aset hse with rfl | hse'
          · refine ⟨fun lp hlp => ?_, he.2⟩
            rcases mem_aset hlp with rfl | hlp'
            · exact inBounds_mk hbx.1 hbx.2 hby.1 hby.2
            · exact he.1 lp hlp'
          · exact hraw' se hse'
        · intro se hse
          rcases mem_aset hse with rfl | hse'
          · exact ⟨he.1, fun dp hdp => by
              injection hdp with hdp'
              rw [← hdp']
              exact inBounds_mk hbx.1 hbx.2 hby.1 hby.2⟩
          · exact hraw' se hse'
        · exact hraw'

/-- C10: every position written through the public surface — a drag via
`move_entity` (player or disc), a position-CSV row, or a strategy-CSV
row — is clamped into the field first, so `0 ≤ x ≤ FIELD_LEN` and
`0 ≤ y ≤ FIELD_WID` hold for every stored position. -/
theorem c10_public_positions_in_bounds :
    (∀ (sc : Scene) (i : ℕ) (nx ny : ℚ) (q : Player), sc.players.get? i = some q →
      ∃ q', (moveEntity sc (.player i) nx ny).players.get? i = some q' ∧ inBounds q'.pos) ∧
    (∀ (sc : Scene) (nx ny : ℚ), inBounds (moveEntity sc .disc nx ny).disc) ∧
    (∀ (rows : List CsvRow) (res : List Player × Option Pos),
      importCsvLoop rows [] none = some res →
      (∀ p ∈ res.1, inBounds p.pos) ∧ (∀ dp, res.2 = some dp → inBounds dp)) ∧
    (∀ (rows : List StratRow), rawBounded (importStrategyRaw rows)) := by
  refine ⟨?_, ?_, ?_, importStrategyRaw_bounds⟩
  · intro sc i nx ny q hq
    have hpl : (moveEntity sc (.player i) nx ny).players =
        setPlayerPos sc.players i
          (qclamp (snapAxis nx) 0 fieldLen, qclamp (snapAxis ny) 0 fieldWid) := by
      unfold moveEntity
      dsimp only
      rw [hq]
      dsimp only
      rw [moveEntity_fold_players]
    rw [hpl]
    refine ⟨{ q with pos := (qclamp (snapAxis nx) 0 fieldLen, qclamp (snapAxis ny) 0 fieldWid) },
      setPlayerPos_get_self _ hq, inBounds_clamped nx ny⟩
  · intro sc nx ny
    exact inBounds_clamped nx ny
  · intro rows res h
    exact importCsvLoop_bounds rows [] none res (fun p hp => by cases hp)
      (fun dp hdp => by cases hdp) h

def c10sc : Scene :=
  { players := [{ team := "Blue", label := "A", pos := (1, 1) }],
    disc := (0, 0), links := [], followTasks := [],
    followDelay := 7/20, followDuration := 7/20 }

theorem c10_public_positions_in_bounds_witness :
    (∃ q', (moveEntity c10sc (.player 0) 500 (-3)).players.get? 0 = some q' ∧ inBounds q'.pos) ∧
    inBounds (moveEntity c10sc .disc (-7) 500).disc ∧
    rawBounded (importStrategyRaw
      [{ step := .num 0, entity := "player", label := "A", x := .num 500, y := .num (-3) }]) :=
  ⟨c10_public_positions_in_bounds.1 c10sc 0 500 (-3)
      { team := "Blue", label := "A", pos := (1, 1) } (by with_unfolding_all rfl),
   c10_public_positions_in_bounds.2.1 c10sc (-7) 500,
   c10_public_positions_in_bounds.2.2.2
     [{ step := .num 0, entity := "player", label := "A", x := .num 500, y := .num (-3) }]⟩

/-! ## C9: roles of committed continuous-mode pairs -/

/-- `_schedule_follow` keeps some task for any follower index that already has
one (replacement removes only the scheduled follower's own task, then appends
a fresh one). -/
theorem scheduleFollow_keeps (sc : Scene) (fidx j : ℕ) (t : Pos)
    (h : ∃ tk ∈ sc.followTasks, tk.follower = j) :
    ∃ tk ∈ (scheduleFollow sc fidx t).followTasks, tk.follower = j := by
  unfold scheduleFollow
  split_ifs with hlen
  · exact h
  · cases hg : sc.players.get? fidx with
    | none => exact h
    | some fp =>
      by_cases hj : fidx = j
      · subst hj
        exact ⟨_, List.mem_append_right _ (List.mem_singleton_self _), rfl⟩
      · obtain ⟨tk, htk, hf⟩ := h
        refine ⟨tk, List.mem_append_left _ (List.mem_filter.2 ⟨htk, ?_⟩), hf⟩
        rw [hf]
        exact decide_eq_true (fun hh => hj hh.symm)

/-- Scheduling a valid follower index leaves a task for it. -/
theorem scheduleFollow_adds (sc : Scene) (j : ℕ) (t : Pos) (hlt : j < sc.players.length) :
    ∃ tk ∈ (scheduleFollow sc j t).followTasks, tk.follower = j := by
  unfold scheduleFollow
  rw [if_neg (not_le.2 hlt)]
  cases hg : sc.players.get? j with
  | none =>
    rw [List.get?_eq_none] at hg
    exact absurd hg (not_le.2 hlt)
  | some fp => exact ⟨_, List.mem_append_right _ (List.mem_singleton_self _), rfl⟩

/-- A step of the link loop preserves existing follow tasks for any index. -/
theorem moveLinkStep_keeps (leaderLabel : String) (nxy : Pos) (acc : Scene)
    (pr : LPair) (j : ℕ) (h : ∃ tk ∈ acc.followTasks, tk.follower = j) :
    ∃ tk ∈ (moveLinkStep leaderLabel nxy acc pr).followTasks, tk.follower = j := by
  unfold moveLinkStep
  by_cases hmem : leaderLabel ∈ pairList pr
  · rw [if_pos hmem]
    cases hfil : (pairList pr).filter (fun l => l ≠ leaderLabel) with
    | nil => exact h
    | cons other rest =>
      dsimp only
      cases hli : labelIdx acc.players other with
      | some fidx =>
        dsimp only
        exact scheduleFollow_keeps acc fidx j nxy h
      | none => exact h
  · rw [if_neg hmem]
    exact h

/-- The link loop of `move_entity` schedules index `j` whenever some pair in
the list contains the moved label together with the label at index `j`. -/
theorem moveEntity_fold_schedules (leaderLabel : String) (nxy : Pos) (j : ℕ) :
    ∀ (prs : List LPair) (acc : Scene),
      ((∃ tk ∈ acc.followTasks, tk.follower = j) ∨
        (∃ pr ∈ prs, leaderLabel ∈ pairList pr ∧
          ∃ other rest, (pairList pr).filter (fun l => l ≠ leaderLabel) = other :: rest ∧
            labelIdx acc.players other = some j)) →
      ∃ tk ∈ (prs.foldl (moveLinkStep leaderLabel nxy) acc).followTasks, tk.follower = j := by
  intro prs
  induction prs with
  | nil =>
    intro acc h
    rcases h with h | ⟨pr, hpr, _⟩
    · exact h
    · cases hpr
  | cons pr prs ih =>
    intro acc h
    rw [List.foldl_cons]
    rcases h with h | ⟨pr', hpr', hmem', other, rest, hfil', hli'⟩
    · exact ih _ (Or.inl (moveLinkStep_keeps leaderLabel nxy acc pr j h))
    · rcases List.mem_cons.1 hpr' with rfl | hpr''
      · refine ih _ (Or.inl ?_)
        unfold moveLinkStep
        rw [if_pos hmem', hfil']
        dsimp only
        rw [hli']
        exact scheduleFollow_adds acc j nxy (labelIdx_lt hli')
      · refine ih _ (Or.inr ⟨pr', hpr'', hmem', other, rest, hfil', ?_⟩)
        rw [moveLinkStep_players]
        exact hli'

/-- C9 amended: committed pairs are undirected in continuous mode — moving
*either* member of a pair schedules the other member as follower; in
particular moving the second-selected member schedules the first-selected one
(roles are not fixed by creation order). -/
theorem c9_pairs_are_undirected (sc : Scene) (pr : LPair) (i j : ℕ) (nx ny : ℚ)
    (q : Player) (hpr : pr ∈ sc.links) (hq : sc.players.get? i = some q)
    (hlab : q.label = pr.b) (hne : pr.a ≠ pr.b)
    (hj : labelIdx sc.players pr.a = some j) :
    ∃ tk ∈ (moveEntity sc (.player i) nx ny).followTasks, tk.follower = j := by
  have hfil : (pairList pr).filter (fun l => l ≠ pr.b) = [pr.a] := by
    simp [pairList, hne]
  have hpl :
      moveEntity sc (.player i) nx ny =
        sc.links.foldl
          (moveLinkStep q.label
            (qclamp (snapAxis nx) 0 fieldLen, qclamp (snapAxis ny) 0 fieldWid))
          { sc with players := setPlayerPos sc.players i (qclamp (snapAxis nx) 0 fieldLen, qclamp (snapAxis ny) 0 fieldWid) } := by
    unfold moveEntity
    dsimp only
    rw [hq]
  rw [hpl]
  apply moveEntity_fold_schedules
  refine Or.inr ⟨pr, hpr, ?_, pr.a, [], ?_, ?_⟩
  · rw [hlab]
    simp [pairList, hne]
  · rw [hlab]
    exact hfil
  · rw [labelIdx_congr (setPlayerPos_map_label sc.players i _)]
    exact hj

/-- Scene for the C9 counterexample: players `A` (index 0) and `B` (index 1). -/
def c9sc0 : Scene :=
  { players := [{ team := "Blue", label := "A", pos := (0, 0) },
                { team := "Blue", label := "B", pos := (5, 5) }],
    disc := (0, 0), links := [], followTasks := [],
    followDelay := 7/20, followDuration := 7/20 }

/-- Create the pair by clicking `A` first (first-selected) then `B`. -/
def c9sc1 : Scene := addLink c9sc0 "A" "B"

/-- C9 counterexample: moving the *second-selected* member `B` schedules a
follow task that moves the *first-selected* member `A` (index 0) — the
committed pair is stored as an undirected frozenset and `move_entity` treats
whichever member moved as the leader, so roles are not fixed by creation
order. -/
theorem c9_follower_moves_leader_counterexample :
    ((moveEntity c9sc1 (.player 1) 20 20).followTasks.map FollowTask.follower) = [0] := by
  with_unfolding_all rfl

theorem c9_pairs_are_undirected_witness :
    ∃ tk ∈ (moveEntity c9sc1 (.player 1) 20 20).followTasks, tk.follower = 0 :=
  c9_pairs_are_undirected c9sc1 { a := "A", b := "B" } 1 0 20 20
    { team := "Blue", label := "B", pos := (5, 5) }
    (of_decide_eq_true (by with_unfolding_all rfl))
    (by with_unfolding_all rfl)
    (by with_unfolding_all rfl)
    (of_decide_eq_true (by with_unfolding_all rfl))
    (by with_unfolding_all rfl)

/-! ## Key uniqueness of reconstructed snapshots -/

theorem nodupKeys_nil {κ α : Type} [DecidableEq κ] : NodupKeys ([] : List (κ × α)) := by
  simp [NodupKeys]

theorem nodupKeys_foldl_aset {κ α : Type} [DecidableEq κ] (l : List (κ × α))
    (start : List (κ × α)) (h : NodupKeys start) :
    NodupKeys (l.foldl (fun d kv => aset d kv.1 kv.2) start) :=
  foldl_preserve (P := NodupKeys) _ (fun _ kv hd => nodupKeys_aset hd kv.1 kv.2) l start h

theorem pass1Player_nodup (links : Links) (s : ℕ) (st : P1) (lp : String × Pos)
    (h : NodupKeys st.players) : NodupKeys (pass1Player links s st lp).players := by
  unfold pass1Player
  split_ifs
  · exact h
  · exact nodupKeys_aset h lp.1 lp.2
  · exact nodupKeys_aset h lp.1 lp.2

theorem pass1Entry_players_nodup (links : Links) (s : ℕ) (st : P1) (e : Entry)
    (h : NodupKeys st.players) : NodupKeys (pass1Entry links s st e).players := by
  unfold pass1Entry
  have h1 : NodupKeys (e.players.foldl (pass1Player links s) st).players :=
    foldl_preserve (P := fun st : P1 => NodupKeys st.players) _
      (fun st' lp h' => pass1Player_nodup links s st' lp h') e.players st h
  cases e.disc <;> exact h1

theorem pass1_players_nodup (data : List (ℤ × Entry)) (links : Links) :
    ∀ step, NodupKeys (pass1 data links step).players
  | 0 => nodupKeys_foldl_aset _ [] nodupKeys_nil
  | s + 1 =>
    pass1Entry_players_nodup links (s + 1) (pass1 data links s) _
      (pass1_players_nodup data links s)

theorem pass2Leader_nodup (step : ℕ) (ms : List (String × ℕ))
    (pl : List (String × Pos)) (lf : String × List (String × ℕ))
    (h : NodupKeys pl) : NodupKeys (pass2Leader step ms pl lf) := by
  unfold pass2Leader
  cases aget pl lf.1 with
  | none => exact h
  | some p =>
    cases aget ms lf.1 with
    | none => exact h
    | some s =>
      refine foldl_preserve (P := NodupKeys) _ (fun pl' fd h' => ?_) lf.2 pl h
      split_ifs
      · exact nodupKeys_aset h' fd.1 p
      · exact h'

theorem pass2_nodup (step : ℕ) (ms : List (String × ℕ)) (fol : Links)
    (pl : List (String × Pos)) (h : NodupKeys pl) :
    NodupKeys (pass2 step ms fol pl) :=
  foldl_preserve (P := NodupKeys) _ (fun pl' lf h' => pass2Leader_nodup step ms pl' lf h')
    fol pl h

theorem reconstructPure_players_nodup (data : List (ℤ × Entry)) (links : Links)
    (step : ℕ) : NodupKeys (reconstructPure data links step).players :=
  pass2_nodup step _ _ _ (pass1_players_nodup data links step)

/-! ## C3: integer-step playback applies the reconstruction verbatim -/

theorem qclamp_id {t m : ℚ} (h0 : 0 ≤ t) (h1 : t ≤ m) : qclamp t 0 m = t := by
  simp [qclamp, min_eq_right h1, max_eq_right h0]

theorem applySnapPairs_untouched (pim : String → Option ℕ) (prs : List (String × Pos))
    (idx : ℕ) (hno : ∀ lp ∈ prs, ∀ k, pim lp.1 = some k → k ≠ idx) :
    ∀ acc : List Player, (applySnapPairs pim acc prs).get? idx = acc.get? idx := by
  induction prs with
  | nil => intro acc; rfl
  | cons lp prs ih =>
    intro acc
    have ih' := ih (fun lp' h' k hk => hno lp' (List.mem_cons_of_mem _ h') k hk)
    have hstep : applySnapPairs pim acc (lp :: prs) =
        applySnapPairs pim
          (match pim lp.1 with
            | some k => setPlayerPos acc k lp.2
            | none => acc) prs := rfl
    rw [hstep]
    cases hp : pim lp.1 with
    | none => exact ih' acc
    | some k =>
      dsimp only
      rw [ih' (setPlayerPos acc k lp.2)]
      exact setPlayerPos_get_ne acc k idx lp.2
        (fun hh => hno lp (List.mem_cons_self _ _) k hp hh.symm)

theorem applySnapPairs_get (pim : String → Option ℕ)
    (hinj : ∀ l l' k, pim l = some k → pim l' = some k → l = l')
    (prs : List (String × Pos)) (hnd : NodupKeys prs) :
    ∀ (acc : List Player) (lab : String) (p : Pos) (idx : ℕ) (q : Player),
      (lab, p) ∈ prs → pim lab = some idx → acc.get? idx = some q →
      (applySnapPairs pim acc prs).get? idx = some { q with pos := p } := by
  induction prs with
  | nil => intro acc lab p idx q hm; cases hm
  | cons lp prs ih =>
    intro acc lab p idx q hm hpim hq
    obtain ⟨l0, p0⟩ := lp
    have hnotin : l0 ∉ prs.map Prod.fst := (List.nodup_cons.1 hnd).1
    have hnd' : NodupKeys prs := (List.nodup_cons.1 hnd).2
    have hstep : applySnapPairs pim acc ((l0, p0) :: prs) =
        applySnapPairs pim
          (match pim l0 with
            | some k => setPlayerPos acc k p0
            | none => acc) prs := rfl
    rw [hstep]
    rcases List.mem_cons.1 hm with heq | hm'
    · cases heq
      rw [hpim]
      dsimp only
      have huntouched : ∀ lp' ∈ prs, ∀ k, pim lp'.1 = some k → k ≠ idx := by
        intro lp' hlp' k hk hkidx
        subst hkidx
        have : lp'.1 = lab := hinj _ _ _ hk hpim
        exact hnotin (this ▸ List.mem_map_of_mem Prod.fst hlp')
      rw [applySnapPairs_untouched pim prs idx huntouched]
      exact setPlayerPos_get_self p hq
    · have hl0 : ∀ k, pim l0 = some k → k ≠ idx := by
        intro k hk hkidx
        subst hkidx
        have : l0 = lab := hinj _ _ _ hk hpim
        subst this
        exact hnotin (List.mem_map_of_mem Prod.fst hm')
      cases hp0 : pim l0 with
      | none => exact ih hnd' acc lab p idx q hm' hpim hq
      | some k0 =>
        dsimp only
        refine ih hnd' _ lab p idx q hm' hpim ?_
        rw [setPlayerPos_get_ne acc k0 idx p0 (fun hh => hl0 k0 hp0 hh.symm)]
        exact hq

/-- The scene produced by the integer-step branch of `update_playback`:
apply the snapshot's player positions, then its disc if present. -/
def applyIntSnap (sc : Scene) (snap : Snap) : Scene :=
  let sc' := { sc with players := applySnapPairs (labelIdx sc.players) sc.players snap.players }
  match snap.disc with
  | some d => { sc' with disc := d }
  | none => sc'

theorem applyIntSnap_players (sc : Scene) (snap : Snap) :
    (applyIntSnap sc snap).players =
      applySnapPairs (labelIdx sc.players) sc.players snap.players := by
  unfold applyIntSnap
  cases snap.disc <;> rfl

theorem applyIntSnap_disc_some (sc : Scene) (snap : Snap) (d : Pos)
    (h : snap.disc = some d) : (applyIntSnap sc snap).disc = d := by
  unfold applyIntSnap
  rw [h]

theorem applyIntSnap_disc_none (sc : Scene) (snap : Snap) (h : snap.disc = none) :
    (applyIntSnap sc snap).disc = sc.disc := by
  unfold applyIntSnap
  rw [h]

/-- C3: at an integer step `i` within range, `update_playback` applies the
snapshot `reconstruct(i)` verbatim: every player label of the snapshot that
exists in the scene receives exactly the snapshot position (no interpolation),
and the disc receives exactly the snapshot's disc position (or is untouched
when the snapshot has none) — zero drift at integer steps. -/
theorem c3_integer_scrub (rm : RM) (sc : Scene) (i : ℕ) (hco : Coherent rm)
    (hd : rm.data ≠ []) (hsc : sc.players ≠ []) (hle : (i : ℚ) ≤ rm.maxStep) :
    (∀ lab p idx q, aget (reconstructPure rm.data rm.links i).players lab = some p →
      labelIdx sc.players lab = some idx → sc.players.get? idx = some q →
      (updatePlayback rm sc (i : ℚ)).2.players.get? idx = some { q with pos := p }) ∧
    (∀ dp, (reconstructPure rm.data rm.links i).disc = some dp →
      (updatePlayback rm sc (i : ℚ)).2.disc = dp) ∧
    ((reconstructPure rm.data rm.links i).disc = none →
      (updatePlayback rm sc (i : ℚ)).2.disc = sc.disc) := by
  have hqc : qclamp (i : ℚ) 0 rm.maxStep = (i : ℚ) :=
    qclamp_id (by positivity) hle
  have hfl : (⌊(i : ℚ)⌋).toNat = i := by simp
  have hcl : (⌈(i : ℚ)⌉).toNat = i := by simp
  have hup : (updatePlayback rm sc (i : ℚ)).2 =
      applyIntSnap sc (reconstructPure rm.data rm.links i) := by
    simp only [updatePlayback, applyIntSnap]
    rw [if_neg hd, hqc, if_neg hsc, hfl, hcl, if_pos rfl,
      buildSnapshot_fst rm i hco]
  rw [hup]
  refine ⟨fun lab p idx q hsnap hli hq => ?_, fun dp hdp => ?_, fun hdp => ?_⟩
  · rw [applyIntSnap_players]
    exact applySnapPairs_get (labelIdx sc.players)
      (fun l l' k h1 h2 => labelIdx_inj h1 h2)
      _ (reconstructPure_players_nodup rm.data rm.links i)
      sc.players lab p idx q (aget_mem hsnap) hli hq
  · exact applyIntSnap_disc_some sc _ dp hdp
  · exact applyIntSnap_disc_none sc _ hdp

/-- Sample state for the C3 witness: a two-step timeline played at step 1. -/
def c3rm : RM :=
  { rmInit with
    mode := .playback
    maxStep := 1
    data := [(0, { players := [("A", ((0:ℚ), (0:ℚ)))], disc := some (4, 4) }),
             (1, { players := [("A", ((2:ℚ), (3:ℚ)))], disc := none })] }

def c3sc : Scene :=
  { players := [{ team := "Blue", label := "A", pos := (9, 9) }],
    disc := (0, 0), links := [], followTasks := [],
    followDelay := 7/20, followDuration := 7/20 }

theorem c3_integer_scrub_witness :
    (updatePlayback c3rm c3sc ((1 : ℕ) : ℚ)).2.players.get? 0 =
      some { team := "Blue", label := "A", pos := ((2 : ℚ), (3 : ℚ)) } ∧
    (updatePlayback c3rm c3sc ((1 : ℕ) : ℚ)).2.disc = (4, 4) :=
  ⟨(c3_integer_scrub c3rm c3sc 1
      ⟨fun k s h => absurd h (by with_unfolding_all (exact fun hh => Option.noConfusion hh)),
       Or.inl rfl⟩
      (by with_unfolding_all (exact fun hh => List.noConfusion hh))
      (by with_unfolding_all (exact fun hh => List.noConfusion hh))
      (of_decide_eq_true (by with_unfolding_all rfl))).1
    "A" (2, 3) 0 { team := "Blue", label := "A", pos := (9, 9) }
    (by with_unfolding_all rfl) (by with_unfolding_all rfl) (by with_unfolding_all rfl),
   (c3_integer_scrub c3rm c3sc 1
      ⟨fun k s h => absurd h (by with_unfolding_all (exact fun hh => Option.noConfusion hh)),
       Or.inl rfl⟩
      (by with_unfolding_all (exact fun hh => List.noConfusion hh))
      (by with_unfolding_all (exact fun hh => List.noConfusion hh))
      (of_decide_eq_true (by with_unfolding_all rfl))).2.1
    (4, 4) (by with_unfolding_all rfl)⟩

/-! ## C4: fractional-step playback interpolates linearly -/

theorem interpStep_get_ne (pim : String → Option ℕ) (s0p s1p : List (String × Pos))
    (a : ℚ) (ps : List Player) (lab : String) (idx : ℕ)
    (hno : ∀ k, pim lab = some k → k ≠ idx) :
    (interpStep pim s0p s1p a ps lab).get? idx = ps.get? idx := by
  unfold interpStep
  cases hx : aget s0p lab <;> cases hy : aget s1p lab <;> cases hp : pim lab <;>
    dsimp only <;> try rfl
  all_goals exact setPlayerPos_get_ne ps _ idx _ (Ne.symm (hno _ hp))

theorem interpPlayers_untouched (pim : String → Option ℕ) (s0p s1p : List (String × Pos))
    (a : ℚ) (labs : List String) (idx : ℕ)
    (hno : ∀ l ∈ labs, ∀ k, pim l = some k → k ≠ idx) :
    ∀ acc : List Player, (interpPlayers pim s0p s1p a acc labs).get? idx = acc.get? idx := by
  induction labs with
  | nil => intro acc; rfl
  | cons l0 labs ih =>
    intro acc
    have hstep : interpPlayers pim s0p s1p a acc (l0 :: labs) =
        interpPlayers pim s0p s1p a (interpStep pim s0p s1p a acc l0) labs := rfl
    rw [hstep, ih (fun l h k hk => hno l (List.mem_cons_of_mem _ h) k hk)]
    exact interpStep_get_ne pim s0p s1p a acc l0 idx
      (fun k hk => hno l0 (List.mem_cons_self _ _) k hk)

theorem interpPlayers_get (pim : String → Option ℕ)
    (hinj : ∀ l l' k, pim l = some k → pim l' = some k → l = l')
    (s0p s1p : List (String × Pos)) (a : ℚ) (labs : List String) (hnd : labs.Nodup) :
    ∀ (acc : List Player) (lab : String) (idx : ℕ) (q : Player),
      lab ∈ labs → pim lab = some idx → acc.get? idx = some q →
      (interpPlayers pim s0p s1p a acc labs).get? idx =
        match aget s0p lab, aget s1p lab with
        | none, some p1 => some { q with pos := p1 }
        | some p0, none => some { q with pos := p0 }
        | some p0, some p1 =>
          some { q with pos := (p0.1 + a * (p1.1 - p0.1), p0.2 + a * (p1.2 - p0.2)) }
        | none, none => some q := by
  induction labs with
  | nil => intro acc lab idx q hm; cases hm
  | cons l0 labs ih =>
    intro acc lab idx q hm hpim hq
    have hnotin : l0 ∉ labs := (List.nodup_cons.1 hnd).1
    have hnd' : labs.Nodup := (List.nodup_cons.1 hnd).2
    have hstep : interpPlayers pim s0p s1p a acc (l0 :: labs) =
        interpPlayers pim s0p s1p a (interpStep pim s0p s1p a acc l0) labs := rfl
    rw [hstep]
    rcases List.mem_cons.1 hm with rfl | hm'
    · have huntouched : ∀ l ∈ labs, ∀ k, pim l = some k → k ≠ idx := by
        intro l hl k hk hkidx
        subst hkidx
        exact hnotin ((hinj _ _ _ hk hpim) ▸ hl)
      rw [interpPlayers_untouched pim s0p s1p a labs idx huntouched]
      unfold interpStep
      cases hx : aget s0p lab <;> cases hy : aget s1p lab <;>
        simp only [hpim] <;> first
          | exact hq
          | exact setPlayerPos_get_self _ hq
    · have hl0 : ∀ k, pim l0 = some k → k ≠ idx := by
        intro k hk hkidx
        subst hkidx
        have : l0 = lab := hinj _ _ _ hk hpim
        subst this
        exact hnotin hm'
      refine ih hnd' _ lab idx q hm' hpim ?_
      rw [interpStep_get_ne pim s0p s1p a acc l0 idx hl0]
      exact hq

/-- The scene produced by the fractional branch of `update_playback`. -/
def applyInterpSnap (sc : Scene) (s0 s1 : Snap) (a : ℚ) : Scene :=
  let labs := (s0.players.map Prod.fst ++ s1.players.map Prod.fst).dedup
  let sc' := { sc with players := interpPlayers (labelIdx sc.players) s0.players s1.players a sc.players labs }
  match s0.disc, s1.disc with
  | none, none => sc'
  | sd0, sd1 =>
    let d0 := sd0.getD (sd1.getD (0, 0))
    let d1 := sd1.getD (sd0.getD (0, 0))
    { sc' with disc := (d0.1 + a * (d1.1 - d0.1), d0.2 + a * (d1.2 - d0.2)) }

theorem applyInterpSnap_players (sc : Scene) (s0 s1 : Snap) (a : ℚ) :
    (applyInterpSnap sc s0 s1 a).players =
      interpPlayers (labelIdx sc.players) s0.players s1.players a sc.players
        ((s0.players.map Prod.fst ++ s1.players.map Prod.fst).dedup) := by
  unfold applyInterpSnap
  cases s0.disc <;> cases s1.disc <;> rfl

theorem applyInterpSnap_disc_both (sc : Scene) (s0 s1 : Snap) (a : ℚ) (d0 d1 : Pos)
    (h0 : s0.disc = some d0) (h1 : s1.disc = some d1) :
    (applyInterpSnap sc s0 s1 a).disc = (d0.1 + a * (d1.1 - d0.1), d0.2 + a * (d1.2 - d0.2)) := by
  unfold applyInterpSnap
  rw [h0, h1]
  rfl

theorem applyInterpSnap_disc_left (sc : Scene) (s0 s1 : Snap) (a : ℚ) (d0 : Pos)
    (h0 : s0.disc = some d0) (h1 : s1.disc = none) :
    (applyInterpSnap sc s0 s1 a).disc = d0 := by
  unfold applyInterpSnap
  rw [h0, h1]
  show (d0.1 + a * (d0.1 - d0.1), d0.2 + a * (d0.2 - d0.2)) = d0
  simp

theorem applyInterpSnap_disc_right (sc : Scene) (s0 s1 : Snap) (a : ℚ) (d1 : Pos)
    (h0 : s0.disc = none) (h1 : s1.disc = some d1) :
    (applyInterpSnap sc s0 s1 a).disc = d1 := by
  unfold applyInterpSnap
  rw [h0, h1]
  show (d1.1 + a * (d1.1 - d1.1), d1.2 + a * (d1.2 - d1.2)) = d1
  simp

/-- C4: at a fractional step `t` (strictly between two integer steps, within
range), `update_playback` sets each player present in both surrounding
reconstructions to the linear blend `p0 + (t - i0) * (p1 - p0)`, sets a player
present in only one of the two reconstructions to that snapshot's position
unmodified (no extrapolation, no vanishing), and does the same for the disc. -/
theorem c4_fractional_interpolation (rm : RM) (sc : Scene) (t : ℚ) (i0 i1 : ℕ)
    (s0 s1 : Snap) (a : ℚ) (hco : Coherent rm) (hd : rm.data ≠ [])
    (hsc : sc.players ≠ []) (h0 : 0 ≤ t) (hle : t ≤ rm.maxStep)
    (hi0 : i0 = (⌊t⌋).toNat) (hi1 : i1 = (⌈t⌉).toNat) (hfr : i0 ≠ i1)
    (hs0 : s0 = reconstructPure rm.data rm.links i0)
    (hs1 : s1 = reconstructPure rm.data rm.links i1)
    (ha : a = t - (i0 : ℚ)) :
    (∀ lab p0 p1 idx q, aget s0.players lab = some p0 → aget s1.players lab = some p1 →
      labelIdx sc.players lab = some idx → sc.players.get? idx = some q →
      (updatePlayback rm sc t).2.players.get? idx =
        some { q with pos := (p0.1 + a * (p1.1 - p0.1), p0.2 + a * (p1.2 - p0.2)) }) ∧
    (∀ lab p0 idx q, aget s0.players lab = some p0 → aget s1.players lab = none →
      labelIdx sc.players lab = some idx → sc.players.get? idx = some q →
      (updatePlayback rm sc t).2.players.get? idx = some { q with pos := p0 }) ∧
    (∀ lab p1 idx q, aget s0.players lab = none → aget s1.players lab = some p1 →
      labelIdx sc.players lab = some idx → sc.players.get? idx = some q →
      (updatePlayback rm sc t).2.players.get? idx = some { q with pos := p1 }) ∧
    (∀ d0 d1, s0.disc = some d0 → s1.disc = some d1 →
      (updatePlayback rm sc t).2.disc = (d0.1 + a * (d1.1 - d0.1), d0.2 + a * (d1.2 - d0.2))) ∧
    (∀ d0, s0.disc = some d0 → s1.disc = none → (updatePlayback rm sc t).2.disc = d0) ∧
    (∀ d1, s0.disc = none → s1.disc = some d1 → (updatePlayback rm sc t).2.disc = d1) := by
  subst hi0 hi1 hs0 hs1 ha
  have hqc : qclamp t 0 rm.maxStep = t := qclamp_id h0 hle
  have hco1 := buildSnapshot_coherent rm (⌊t⌋).toNat hco
  have hsp1 := (buildSnapshot_spec rm (⌊t⌋).toNat).1
  have hco2 := buildSnapshot_coherent _ (⌊t⌋).toNat hco1
  have hsp2 := (buildSnapshot_spec (buildSnapshot rm (⌊t⌋).toNat).2 (⌊t⌋).toNat).1
  have hs0' : (buildSnapshot (buildSnapshot rm (⌊t⌋).toNat).2 (⌊t⌋).toNat).1 =
      reconstructPure rm.data rm.links (⌊t⌋).toNat := by
    rw [buildSnapshot_fst _ _ hco1, hsp1.1, hsp1.2.1]
  have hs1' :
      (buildSnapshot (buildSnapshot (buildSnapshot rm (⌊t⌋).toNat).2 (⌊t⌋).toNat).2
        (⌈t⌉).toNat).1 = reconstructPure rm.data rm.links (⌈t⌉).toNat := by
    rw [buildSnapshot_fst _ _ hco2, hsp2.1, hsp2.2.1, hsp1.1, hsp1.2.1]
  have hup : (updatePlayback rm sc t).2 =
      applyInterpSnap sc (reconstructPure rm.data rm.links (⌊t⌋).toNat)
        (reconstructPure rm.data rm.links (⌈t⌉).toNat) (t - ((⌊t⌋).toNat : ℚ)) := by
    simp only [updatePlayback, applyInterpSnap]
    rw [if_neg hd, hqc, if_neg hsc, if_neg hfr, hs0', hs1']
  rw [hup]
  have hinj : ∀ l l' k, labelIdx sc.players l = some k → labelIdx sc.players l' = some k →
      l = l' := fun l l' k h1 h2 => labelIdx_inj h1 h2
  have hndl : ((reconstructPure rm.data rm.links (⌊t⌋).toNat).players.map Prod.fst ++
      (reconstructPure rm.data rm.links (⌈t⌉).toNat).players.map Prod.fst).dedup.Nodup :=
    List.nodup_dedup _
  refine ⟨fun lab p0 p1 idx q hx hy hli hq => ?_, fun lab p0 idx q hx hy hli hq => ?_,
          fun lab p1 idx q hx hy hli hq => ?_, fun d0 d1 hx hy => ?_,
          fun d0 hx hy => ?_, fun d1 hx hy => ?_⟩
  · rw [applyInterpSnap_players]
    have := interpPlayers_get (labelIdx sc.players) hinj
      (reconstructPure rm.data rm.links (⌊t⌋).toNat).players
      (reconstructPure rm.data rm.links (⌈t⌉).toNat).players
      (t - ((⌊t⌋).toNat : ℚ)) _ hndl sc.players lab idx q
      (List.mem_dedup.2 (List.mem_append_left _
        (List.mem_map_of_mem Prod.fst (aget_mem hx))))
      hli hq
    rw [this, hx, hy]
  · rw [applyInterpSnap_players]
    have := interpPlayers_get (labelIdx sc.players) hinj
      (reconstructPure rm.data rm.links (⌊t⌋).toNat).players
      (reconstructPure rm.data rm.links (⌈t⌉).toNat).players
      (t - ((⌊t⌋).toNat : ℚ)) _ hndl sc.players lab idx q
      (List.mem_dedup.2 (List.mem_append_left _
        (List.mem_map_of_mem Prod.fst (aget_mem hx))))
      hli hq
    rw [this, hx, hy]
  · rw [applyInterpSnap_players]
    have := interpPlayers_get (labelIdx sc.players) hinj
      (reconstructPure rm.data rm.links (⌊t⌋).toNat).players
      (reconstructPure rm.data rm.links (⌈t⌉).toNat).players
      (t - ((⌊t⌋).toNat : ℚ)) _ hndl sc.players lab idx q
      (List.mem_dedup.2 (List.mem_append_right _
        (List.mem_map_of_mem Prod.fst (aget_mem hy))))
      hli hq
    rw [this, hx, hy]
  · exact applyInterpSnap_disc_both sc _ _ _ d0 d1 hx hy
  · exact applyInterpSnap_disc_left sc _ _ _ d0 hx hy
  · exact applyInterpSnap_disc_right sc _ _ _ d1 hx hy

/-- Scenario B of the spec for the C4 witness: `A = (0,0)` at step 1 and
`A = (2,0)` at step 2; query at `t = 3/2`. -/
def c4rm : RM :=
  { rmInit with
    mode := .playback
    maxStep := 2
    data := [(0, { players := [("A", ((0:ℚ), (0:ℚ)))], disc := some (8, 8) }),
             (2, { players := [("A", ((2:ℚ), (0:ℚ)))], disc := none })] }

def c4sc : Scene :=
  { players := [{ team := "Blue", label := "A", pos := (9, 9) }],
    disc := (0, 0), links := [], followTasks := [],
    followDelay := 7/20, followDuration := 7/20 }

theorem c4_fractional_interpolation_witness :
    (updatePlayback c4rm c4sc (3/2)).2.players.get? 0 =
      some { team := "Blue", label := "A", pos := ((1 : ℚ), (0 : ℚ)) } := by
  have h := (c4_fractional_interpolation c4rm c4sc (3/2) 1 2
      (reconstructPure c4rm.data c4rm.links 1) (reconstructPure c4rm.data c4rm.links 2) (1/2)
      ⟨fun k s hh => absurd hh (by with_unfolding_all (exact fun hc => Option.noConfusion hc)),
       Or.inl rfl⟩
      (by with_unfolding_all (exact fun hh => List.noConfusion hh))
      (by with_unfolding_all (exact fun hh => List.noConfusion hh))
      (by norm_num) (by norm_num [rmInit, c4rm])
      (by norm_num)
      (by
        rw [show ⌈(3/2 : ℚ)⌉ = 2 from by
          rw [Int.ceil_eq_iff]
          norm_num]
        rfl)
      (by norm_num) rfl rfl (by norm_num)).1
    "A" (0, 0) (2, 0) 0 { team := "Blue", label := "A", pos := (9, 9) }
    (by with_unfolding_all rfl) (by with_unfolding_all rfl)
    (by with_unfolding_all rfl) (by with_unfolding_all rfl)
  rw [h]
  norm_num

/-! ## C1: discrete follower reconstruction -/

/-- Every `(follower, delay)` pair in the rebuilt followers index comes from
some leader's map in the link graph. -/
theorem rebuildInner_sources (links : Links) (l : String) (fm0 : List (String × ℕ))
    (hfm : (l, fm0) ∈ links) :
    ∀ (fds : List (String × ℕ)) (acc : Links), (∀ fd ∈ fds, fd ∈ fm0) →
      (∀ e ∈ acc, ∀ fd ∈ e.2, ∃ fm, (e.1, fm) ∈ links ∧ fd ∈ fm) →
      ∀ e ∈ fds.foldl (fun fol2 fd => aset fol2 l ((aget fol2 l).getD [] ++ [fd])) acc,
        ∀ fd ∈ e.2, ∃ fm, (e.1, fm) ∈ links ∧ fd ∈ fm := by
  intro fds
  induction fds with
  | nil => exact fun acc _ hacc => hacc
  | cons fd0 fds ih =>
    intro acc hsub hacc
    refine ih _ (fun fd h => hsub fd (List.mem_cons_of_mem _ h)) ?_
    intro e he fd hfd
    rcases mem_aset he with rfl | he'
    · rcases List.mem_append.1 hfd with hfd' | hfd'
      · cases hg : aget acc l with
        | none =>
          rw [hg] at hfd'
          cases hfd'
        | some old =>
          rw [hg] at hfd'
          exact hacc (l, old) (aget_mem hg) fd hfd'
      · rw [List.mem_singleton.1 hfd']
        exact ⟨fm0, hfm, hsub fd0 (List.mem_cons_self _ _)⟩
    · exact hacc e he' fd hfd

theorem rebuildFollowers_sources (links : Links) :
    ∀ e ∈ rebuildFollowers links, ∀ fd ∈ e.2, ∃ fm, (e.1, fm) ∈ links ∧ fd ∈ fm := by
  unfold rebuildFollowers
  suffices h : ∀ (ls : List (String × List (String × ℕ))) (acc : Links),
      (∀ e ∈ ls, e ∈ links) →
      (∀ e ∈ acc, ∀ fd ∈ e.2, ∃ fm, (e.1, fm) ∈ links ∧ fd ∈ fm) →
      ∀ e ∈ ls.foldl rebuildStep acc, ∀ fd ∈ e.2, ∃ fm, (e.1, fm) ∈ links ∧ fd ∈ fm by
    exact h links [] (fun e he => he) (fun e he => absurd he (List.not_mem_nil e))
  intro ls
  induction ls with
  | nil => exact fun acc _ hacc => hacc
  | cons lf ls ih =>
    intro acc hls hacc
    refine ih _ (fun e he => hls e (List.mem_cons_of_mem _ he)) ?_
    have hlf : (lf.1, lf.2) ∈ links := by
      rw [Prod.mk.eta]
      exact hls lf (List.mem_cons_self _ _)
    exact rebuildInner_sources links lf.1 lf.2 hlf lf.2 acc (fun fd h => h) hacc

/-- Once a pair sits under key `L` in the accumulator, appends keep it there. -/
theorem rebuildInner_pres (l' L : String) (fdq : String × ℕ) :
    ∀ (fds : List (String × ℕ)) (acc : Links),
      (∃ v, aget acc L = some v ∧ fdq ∈ v) →
      ∃ v, aget (fds.foldl (fun fol2 fd => aset fol2 l' ((aget fol2 l').getD [] ++ [fd])) acc) L = some v ∧ fdq ∈ v := by
  intro fds
  induction fds with
  | nil => exact fun acc h => h
  | cons fd0 fds ih =>
    intro acc ⟨v, hv, hmem⟩
    refine ih _ ?_
    by_cases hl : l' = L
    · subst hl
      refine ⟨(aget acc l').getD [] ++ [fd0], aget_aset_self _ _ _, ?_⟩
      rw [hv]
      exact List.mem_append_left _ hmem
    · exact ⟨v, by rw [aget_aset_ne _ _ _ _ (Ne.symm hl)]; exact hv, hmem⟩

theorem rebuildInner_est (L : String) (fdq : String × ℕ) :
    ∀ (fds : List (String × ℕ)) (acc : Links), fdq ∈ fds →
      ∃ v, aget (fds.foldl (fun fol2 fd => aset fol2 L ((aget fol2 L).getD [] ++ [fd])) acc) L = some v ∧ fdq ∈ v := by
  intro fds
  induction fds with
  | nil => intro acc h; cases h
  | cons fd0 fds ih =>
    intro acc hmem
    rcases List.mem_cons.1 hmem with rfl | hmem'
    · refine rebuildInner_pres L L fdq fds _ ?_
      exact ⟨(aget acc L).getD [] ++ [fdq], aget_aset_self _ _ _,
        List.mem_append_right _ (List.mem_singleton_self _)⟩
    · exact ih _ hmem'

/-- A link-graph pair `(L → F, delay)` is present under `L` in the rebuilt
followers index. -/
theorem rebuildFollowers_mem (links : Links) (L : String) (fl : List (String × ℕ))
    (fd : String × ℕ) (hm : (L, fl) ∈ links) (hfd : fd ∈ fl) :
    ∃ v, aget (rebuildFollowers links) L = some v ∧ fd ∈ v := by
  obtain ⟨pre, post, hsplit⟩ := List.append_of_mem hm
  subst hsplit
  unfold rebuildFollowers
  rw [List.foldl_append, List.foldl_cons]
  refine foldl_preserve (P := fun acc => ∃ v, aget acc L = some v ∧ fd ∈ v)
    rebuildStep (fun acc lf h => rebuildInner_pres lf.1 L fd lf.2 acc h) post _ ?_
  exact rebuildInner_est L fd fl _ hfd

theorem isFollower_of_mem (links : Links) (l : String) (fm : List (String × ℕ))
    (f : String) (dd : ℕ) (h1 : (l, fm) ∈ links) (h2 : (f, dd) ∈ fm) :
    isFollower links f = true := by
  unfold isFollower
  rw [List.any_eq_true]
  refine ⟨(l, fm), h1, ?_⟩
  rw [List.any_eq_true]
  exact ⟨(f, dd), h2, by simp⟩

/-- The inner follower loop of the second pass never touches key `X` if no
pair names `X`. -/
theorem pass2Inner_preserve (step : ℕ) (p' : Pos) (s' : ℕ) (X : String) :
    ∀ (fds : List (String × ℕ)) (acc : List (String × Pos)),
      (∀ fd ∈ fds, fd.1 ≠ X) →
      aget (fds.foldl (fun pl fd => if s' + fd.2 ≤ step then aset pl fd.1 p' else pl) acc) X =
        aget acc X := by
  intro fds
  induction fds with
  | nil => exact fun acc _ => rfl
  | cons fd0 fds ih =>
    intro acc hno
    rw [List.foldl_cons, ih _ (fun fd h => hno fd (List.mem_cons_of_mem _ h))]
    split_ifs
    · exact aget_aset_ne _ _ _ _ (Ne.symm (hno fd0 (List.mem_cons_self _ _)))
    · rfl

/-- Once `F` holds the written value `p`, the inner loop keeps it at `p`. -/
theorem pass2Inner_keep (step : ℕ) (p : Pos) (s' : ℕ) (F : String) :
    ∀ (fds : List (String × ℕ)) (acc : List (String × Pos)),
      aget acc F = some p →
      aget (fds.foldl (fun pl fd => if s' + fd.2 ≤ step then aset pl fd.1 p else pl) acc) F =
        some p := by
  intro fds
  induction fds with
  | nil => exact fun acc h => h
  | cons fd0 fds ih =>
    intro acc h
    rw [List.foldl_cons]
    refine ih _ ?_
    split_ifs
    · by_cases hf : fd0.1 = F
      · rw [hf, aget_aset_self]
      · rw [aget_aset_ne _ _ _ _ (Ne.symm hf)]
        exact h
    · exact h

/-- If the loop contains the pair `(F, d)` and the delay is due, `F` ends at
the written value `p` (every `F`-pair carries the same delay `d`). -/
theorem pass2Inner_hits (step : ℕ) (p : Pos) (s d : ℕ) (F : String)
    (hdue : s + d ≤ step) :
    ∀ (fds : List (String × ℕ)) (acc : List (String × Pos)),
      (F, d) ∈ fds → (∀ fd ∈ fds, fd.1 = F → fd.2 = d) →
      aget (fds.foldl (fun pl fd => if s + fd.2 ≤ step then aset pl fd.1 p else pl) acc) F =
        some p := by
  intro fds
  induction fds with
  | nil => intro acc h; cases h
  | cons fd0 fds ih =>
    intro acc hmem hFd
    rw [List.foldl_cons]
    by_cases hf : fd0.1 = F
    · have hd0 : fd0.2 = d := hFd fd0 (List.mem_cons_self _ _) hf
      rw [if_pos (by rw [hd0]; exact hdue)]
      refine pass2Inner_keep step p s F fds _ ?_
      rw [hf, aget_aset_self]
    · have hmem' : (F, d) ∈ fds := by
        rcases List.mem_cons.1 hmem with heq | h'
        · exact absurd (congrArg Prod.fst heq.symm) hf
        · exact h'
      refine ih _ hmem' (fun fd h hf' => hFd fd (List.mem_cons_of_mem _ h) hf')

/-- One leader of the second pass never touches key `X` if none of its pairs
names `X`. -/
theorem pass2Leader_preserve (step : ℕ) (ms : List (String × ℕ))
    (pl : List (String × Pos)) (e : String × List (String × ℕ)) (X : String)
    (hX : ∀ fd ∈ e.2, fd.1 ≠ X) :
    aget (pass2Leader step ms pl e) X = aget pl X := by
  unfold pass2Leader
  cases h1 : aget pl e.1 with
  | none => rfl
  | some p' =>
    cases h2 : aget ms e.1 with
    | none => rfl
    | some s' => exact pass2Inner_preserve step p' s' X e.2 pl hX

/-- Stability part of the second pass: once both the leader `L` and the
follower `F` hold position `p`, the remaining leaders keep them there. -/
theorem pass2_stable (step : ℕ) (ms : List (String × ℕ)) (L F : String) (p : Pos)
    (d s : ℕ) (hms : aget ms L = some s) :
    ∀ (fol : Links) (pl : List (String × Pos)),
      (∀ e ∈ fol, ∀ fd ∈ e.2, fd.1 = F → e.1 = L ∧ fd.2 = d) →
      (∀ e ∈ fol, ∀ fd ∈ e.2, fd.1 ≠ L) →
      aget pl L = some p → aget pl F = some p →
      aget (pass2 step ms fol pl) L = some p ∧ aget (pass2 step ms fol pl) F = some p := by
  intro fol
  induction fol with
  | nil => exact fun pl _ _ hL hF => ⟨hL, hF⟩
  | cons e fol ih =>
    intro pl hFc hnoL hL hF
    have hstep : pass2 step ms (e :: fol) pl = pass2 step ms fol (pass2Leader step ms pl e) :=
      rfl
    rw [hstep]
    have hL' : aget (pass2Leader step ms pl e) L = some p := by
      rw [pass2Leader_preserve step ms pl e L (fun fd hfd => hnoL e (List.mem_cons_self _ _) fd hfd)]
      exact hL
    have hF' : aget (pass2Leader step ms pl e) F = some p := by
      by_cases heL : e.1 = L
      · unfold pass2Leader
        rw [heL, hL, hms]
        exact pass2Inner_keep step p s F e.2 pl hF
      · rw [pass2Leader_preserve step ms pl e F
          (fun fd hfd hfdF => heL (hFc e (List.mem_cons_self _ _) fd hfd hfdF).1)]
        exact hF
    exact ih _ (fun e' h' => hFc e' (List.mem_cons_of_mem _ h'))
      (fun e' h' => hnoL e' (List.mem_cons_of_mem _ h')) hL' hF'

/-- Writing part of the second pass: if some entry of the followers index is
`L`'s and contains `(F, d)`, and the delay is due, then after the pass both
`L` and `F` hold `L`'s position `p`. -/
theorem pass2_writes (step : ℕ) (ms : List (String × ℕ)) (L F : String) (p : Pos)
    (d s : ℕ) (hms : aget ms L = some s) (hdue : s + d ≤ step) :
    ∀ (fol : Links) (pl : List (String × Pos)),
      (∃ e ∈ fol, e.1 = L ∧ (F, d) ∈ e.2) →
      (∀ e ∈ fol, ∀ fd ∈ e.2, fd.1 = F → e.1 = L ∧ fd.2 = d) →
      (∀ e ∈ fol, ∀ fd ∈ e.2, fd.1 ≠ L) →
      aget pl L = some p →
      aget (pass2 step ms fol pl) L = some p ∧ aget (pass2 step ms fol pl) F = some p := by
  intro fol
  induction fol with
  | nil =>
    rintro pl ⟨e, he, -⟩
    cases he
  | cons e fol ih =>
    rintro pl ⟨e', he', hL', hFd'⟩ hFc hnoL hL
    have hstep : pass2 step ms (e :: fol) pl = pass2 step ms fol (pass2Leader step ms pl e) :=
      rfl
    rw [hstep]
    have hLpres : aget (pass2Leader step ms pl e) L = some p := by
      rw [pass2Leader_preserve step ms pl e L (fun fd hfd => hnoL e (List.mem_cons_self _ _) fd hfd)]
      exact hL
    rcases List.mem_cons.1 he' with rfl | hmem
    · have hFhit : aget (pass2Leader step ms pl e') F = some p := by
        unfold pass2Leader
        rw [hL', hL, hms]
        exact pass2Inner_hits step p s d F hdue e'.2 pl hFd'
          (fun fd hfd hf => (hFc e' (List.mem_cons_self _ _) fd hfd hf).2)
      exact pass2_stable step ms L F p d s hms fol _
        (fun e' h' => hFc e' (List.mem_cons_of_mem _ h'))
        (fun e' h' => hnoL e' (List.mem_cons_of_mem _ h')) hLpres hFhit
    · exact ih _ ⟨e', hmem, hL', hFd'⟩
        (fun e' h' => hFc e' (List.mem_cons_of_mem _ h'))
        (fun e' h' => hnoL e' (List.mem_cons_of_mem _ h')) hLpres

/-- Skipping part of the inner loop: if every `F`-pair's delay is not yet
due, `F` is untouched. -/
theorem pass2Inner_skip (step : ℕ) (p' : Pos) (s' : ℕ) (F : String) :
    ∀ (fds : List (String × ℕ)) (acc : List (String × Pos)),
      (∀ fd ∈ fds, fd.1 = F → ¬(s' + fd.2 ≤ step)) →
      aget (fds.foldl (fun pl fd => if s' + fd.2 ≤ step then aset pl fd.1 p' else pl) acc) F =
        aget acc F := by
  intro fds
  induction fds with
  | nil => exact fun acc _ => rfl
  | cons fd0 fds ih =>
    intro acc hno
    rw [List.foldl_cons, ih _ (fun fd h hf => hno fd (List.mem_cons_of_mem _ h) hf)]
    split_ifs with hc
    · have hf : fd0.1 ≠ F := fun hf => hno fd0 (List.mem_cons_self _ _) hf hc
      exact aget_aset_ne _ _ _ _ (Ne.symm hf)
    · rfl

/-- Missing part of the second pass: when `L`'s move is not yet due for `F`
(and only `L`'s entries can name `F`, always with delay `d`), `F` is left at
its first-pass position. -/
theorem pass2_misses (step : ℕ) (ms : List (String × ℕ)) (L F : String) (d s : ℕ)
    (hms : aget ms L = some s) (hnot : ¬(s + d ≤ step)) :
    ∀ (fol : Links) (pl : List (String × Pos)),
      (∀ e ∈ fol, ∀ fd ∈ e.2, fd.1 = F → e.1 = L ∧ fd.2 = d) →
      aget (pass2 step ms fol pl) F = aget pl F := by
  intro fol
  induction fol with
  | nil => exact fun pl _ => rfl
  | cons e fol ih =>
    intro pl hFc
    have hstep : pass2 step ms (e :: fol) pl = pass2 step ms fol (pass2Leader step ms pl e) :=
      rfl
    rw [hstep, ih _ (fun e' h' => hFc e' (List.mem_cons_of_mem _ h'))]
    unfold pass2Leader
    cases h1 : aget pl e.1 with
    | none => rfl
    | some p' =>
      cases h2 : aget ms e.1 with
      | none => rfl
      | some s' =>
        refine pass2Inner_skip step p' s' F e.2 pl ?_
        intro fd hfd hf
        obtain ⟨heL, hfd2⟩ := hFc e (List.mem_cons_self _ _) fd hfd hf
        rw [heL] at h2
        rw [hms] at h2
        injection h2 with h2'
        rw [hfd2, ← h2']
        exact hnot

/-- With an empty move-start map (the case at step 0) the second pass is the
identity. -/
theorem pass2_empty_ms (step : ℕ) :
    ∀ (fol : Links) (pl : List (String × Pos)), pass2 step [] fol pl = pl := by
  intro fol
  induction fol with
  | nil => exact fun pl => rfl
  | cons e fol ih =>
    intro pl
    have h : pass2Leader step [] pl e = pl := by
      unfold pass2Leader
      cases aget pl e.1 <;> rfl
    show pass2 step [] fol (pass2Leader step [] pl e) = pl
    rw [h]
    exact ih pl

/-- The first pass skips every stored delta of a follower, so a follower's
first-pass position is its baseline position. -/
theorem pass1Player_follower (links : Links) (s : ℕ) (st : P1) (lp : String × Pos)
    (F : String) (hF : isFollower links F = true) :
    aget (pass1Player links s st lp).players F = aget st.players F := by
  unfold pass1Player
  split_ifs with h1 h2
  · rfl
  · exact aget_aset_ne _ _ _ _ (fun he => h1 (he ▸ hF))
  · exact aget_aset_ne _ _ _ _ (fun he => h1 (he ▸ hF))

theorem pass1Entry_follower (links : Links) (s : ℕ) (st : P1) (e : Entry)
    (F : String) (hF : isFollower links F = true) :
    aget (pass1Entry links s st e).players F = aget st.players F := by
  unfold pass1Entry
  have h1 : aget (e.players.foldl (pass1Player links s) st).players F = aget st.players F := by
    refine foldl_preserve (P := fun st' => aget st'.players F = aget st.players F) _
      (fun st' lp h' => ?_) e.players st rfl
    show aget (pass1Player links s st' lp).players F = aget st.players F
    rw [pass1Player_follower links s st' lp F hF]
    exact h'
  cases e.disc <;> exact h1

theorem pass1_follower (data : List (ℤ × Entry)) (links : Links) (F : String)
    (hF : isFollower links F = true) :
    ∀ t, aget (pass1 data links t).players F = aget (pass1 data links 0).players F
  | 0 => rfl
  | t + 1 => by
    have hstep : pass1 data links (t + 1) =
        pass1Entry links (t + 1) (pass1 data links t) (entryAt data ((t : ℤ) + 1)) := rfl
    rw [hstep, pass1Entry_follower links _ _ _ F hF]
    exact pass1_follower data links F hF t

/-- Every label with a recorded move start also has a first-pass position. -/
theorem pass1Player_msSome (links : Links) (s : ℕ) (st : P1) (lp : String × Pos)
    (h : ∀ lab, (aget st.moveStarts lab).isSome → (aget st.players lab).isSome) :
    ∀ lab, (aget (pass1Player links s st lp).moveStarts lab).isSome →
      (aget (pass1Player links s st lp).players lab).isSome := by
  unfold pass1Player
  split_ifs with h1 h2
  · exact h
  · intro lab hl
    by_cases he : lab = lp.1
    · subst he
      rw [aget_aset_self]
      rfl
    · rw [aget_aset_ne _ _ _ _ he] at hl ⊢
      exact h lab hl
  · intro lab hl
    by_cases he : lab = lp.1
    · subst he
      rw [aget_aset_self]
      rfl
    · rw [aget_aset_ne _ _ _ _ he]
      exact h lab hl

theorem pass1Entry_msSome (links : Links) (s : ℕ) (st : P1) (e : Entry)
    (h : ∀ lab, (aget st.moveStarts lab).isSome → (aget st.players lab).isSome) :
    ∀ lab, (aget (pass1Entry links s st e).moveStarts lab).isSome →
      (aget (pass1Entry links s st e).players lab).isSome := by
  unfold pass1Entry
  have h1 := foldl_preserve
    (P := fun st' : P1 => ∀ lab, (aget st'.moveStarts lab).isSome →
      (aget st'.players lab).isSome)
    (pass1Player links s) (fun st' lp h' => pass1Player_msSome links s st' lp h')
    e.players st h
  cases e.disc <;> exact h1

theorem pass1_msSome (data : List (ℤ × Entry)) (links : Links) :
    ∀ t lab, (aget (pass1 data links t).moveStarts lab).isSome →
      (aget (pass1 data links t).players lab).isSome
  | 0 => by
    intro lab h
    have : aget (pass1 data links 0).moveStarts lab = none := rfl
    rw [this] at h
    cases h
  | t + 1 =>
    pass1Entry_msSome links (t + 1) (pass1 data links t) _ (pass1_msSome data links t)

/-- C1: discrete follower reconstruction. Consider a link graph with an edge
`L → F` of delay `d` where `L` is not itself a follower and `L` is the only
leader any edge gives to `F`. Let `s` be `L`'s most recent move-start step as
tracked by the first pass of `build_snapshot` up to step `t`. Then
`reconstruct(t)` places `F` exactly at `L`'s reconstructed position when
`t ≥ s + d`, and for `t < s + d` the link leaves `F`'s position unaffected:
`F` stays at its reconstructed step-0 (baseline) position, since follower
deltas are never applied verbatim. -/
theorem c1_follower_reconstruction (data : List (ℤ × Entry)) (links : Links)
    (L F : String) (fl : List (String × ℕ)) (d : ℕ) (t s : ℕ)
    (hL : aget links L = some fl) (hF : aget fl F = some d)
    (hLnf : isFollower links L = false)
    (honly : ∀ e ∈ links, ∀ fd ∈ e.2, fd.1 = F → e.1 = L ∧ fd.2 = d)
    (hms : aget (pass1 data links t).moveStarts L = some s) :
    (s + d ≤ t → ∃ p, aget (reconstructPure data links t).players L = some p ∧
        aget (reconstructPure data links t).players F = some p) ∧
    (t < s + d → aget (reconstructPure data links t).players F =
        aget (reconstructPure data links 0).players F) := by
  have hmemL : (L, fl) ∈ links := aget_mem hL
  have hmemF : (F, d) ∈ fl := aget_mem hF
  have hFfol : isFollower links F = true := isFollower_of_mem links L fl F d hmemL hmemF
  have hFc : ∀ e ∈ rebuildFollowers links, ∀ fd ∈ e.2, fd.1 = F → e.1 = L ∧ fd.2 = d := by
    intro e he fd hfd hf
    obtain ⟨fm, hfm, hfd'⟩ := rebuildFollowers_sources links e he fd hfd
    exact honly (e.1, fm) hfm fd hfd' hf
  have hnoL : ∀ e ∈ rebuildFollowers links, ∀ fd ∈ e.2, fd.1 ≠ L := by
    intro e he fd hfd hf
    obtain ⟨fm, hfm, hfd'⟩ := rebuildFollowers_sources links e he fd hfd
    have : isFollower links fd.1 = true :=
      isFollower_of_mem links e.1 fm fd.1 fd.2 hfm (by rw [← Prod.mk.eta (p := fd)] at hfd'; exact hfd')
    rw [hf] at this
    rw [this] at hLnf
    cases hLnf
  have hplL : ∃ p, aget (pass1 data links t).players L = some p := by
    have h1 := pass1_msSome data links t L (by rw [hms]; rfl)
    cases hp : aget (pass1 data links t).players L with
    | none => rw [hp] at h1; cases h1
    | some p => exact ⟨p, rfl⟩
  obtain ⟨p, hp⟩ := hplL
  have hex : ∃ e ∈ rebuildFollowers links, e.1 = L ∧ (F, d) ∈ e.2 := by
    obtain ⟨v, hv, hmem⟩ := rebuildFollowers_mem links L fl (F, d) hmemL hmemF
    exact ⟨(L, v), aget_mem hv, rfl, hmem⟩
  have hrec : (reconstructPure data links t).players =
      pass2 t (pass1 data links t).moveStarts (rebuildFollowers links)
        (pass1 data links t).players := rfl
  constructor
  · intro hdue
    obtain ⟨h2L, h2F⟩ := pass2_writes t (pass1 data links t).moveStarts L F p d s hms hdue
      (rebuildFollowers links) (pass1 data links t).players hex hFc hnoL hp
    rw [hrec]
    exact ⟨p, h2L, h2F⟩
  · intro hnot
    rw [hrec, pass2_misses t (pass1 data links t).moveStarts L F d s hms
      (by omega) (rebuildFollowers links) (pass1 data links t).players hFc]
    rw [pass1_follower data links F hFfol t]
    have hrec0 : (reconstructPure data links 0).players =
        pass2 0 (pass1 data links 0).moveStarts (rebuildFollowers links)
          (pass1 data links 0).players := rfl
    rw [hrec0]
    have hms0 : (pass1 data links 0).moveStarts = [] := rfl
    rw [hms0, pass2_empty_ms 0 (rebuildFollowers links) (pass1 data links 0).players]

/-- Timeline and links of the spec's follower-timing example: baseline
`L = (0,0)`, `F = (7,7)`; `L` moves to `(5,5)` at step 1; edge `L → F`
with delay 2. -/
def c1data : List (ℤ × Entry) :=
  [(0, { players := [("L", ((0:ℚ), (0:ℚ))), ("F", ((7:ℚ), (7:ℚ)))], disc := some (0, 0) }),
   (1, { players := [("L", ((5:ℚ), (5:ℚ)))], disc := none })]

def c1links : Links := [("L", [("F", 2)])]

theorem c1_follower_reconstruction_witness :
    (∃ p, aget (reconstructPure c1data c1links 3).players "L" = some p ∧
       aget (reconstructPure c1data c1links 3).players "F" = some p) ∧
    aget (reconstructPure c1data c1links 3).players "F" = some (5, 5) ∧
    (aget (reconstructPure c1data c1links 2).players "F" =
       aget (reconstructPure c1data c1links 0).players "F") ∧
    aget (reconstructPure c1data c1links 2).players "F" = some (7, 7) :=
  ⟨(c1_follower_reconstruction c1data c1links "L" "F" [("F", 2)] 2 3 1
      (by with_unfolding_all rfl) (by with_unfolding_all rfl)
      (by with_unfolding_all rfl)
      (of_decide_eq_true (by with_unfolding_all rfl))
      (by with_unfolding_all rfl)).1
    (of_decide_eq_true (by with_unfolding_all rfl)),
   by with_unfolding_all rfl,
   (c1_follower_reconstruction c1data c1links "L" "F" [("F", 2)] 2 2 1
      (by with_unfolding_all rfl) (by with_unfolding_all rfl)
      (by with_unfolding_all rfl)
      (of_decide_eq_true (by with_unfolding_all rfl))
      (by with_unfolding_all rfl)).2
    (of_decide_eq_true (by with_unfolding_all rfl)),
   by with_unfolding_all rfl⟩

end UFC
